import Mathlib

set_option maxRecDepth 10000

/-
Verification development for the Envisage screenshot-to-notes pipeline.

Source files modelled (shallow embedding):
  src/ocr_utils.py         extract_text, create_note_from_image
  src/watcher.py           wait_for_file_complete, ocr_image_to_markdown,
                           NewImageHandler.on_created
  src/generate_index.py    parse_frontmatter, _parse_iso, build_index
  src/git_ops.py           git_add_commit_push
  src/clipboard_monitor.py grab_poll_loop (per-poll step)

Python strings are modelled as List Char.  Machine-level details that the
claims do not depend on (real time, logging, actual OS calls) are modelled
by explicit environment records whose fields record the outcome of each
external call.
-/

namespace Envisage

abbrev Str := List Char

/-- Membership of a character in a list of characters, as a Bool. -/
def chMem (c : Char) : Str → Bool
  | [] => false
  | d :: t => c == d || chMem c t

/-- The Python str whitespace set: characters for which str.isspace() is
True; this is also the set stripped by str.strip() and matched by the
regex class backslash-s on text patterns. -/
def wsChars : Str :=
  [' ', '\t', '\n', '\r', '\x0B', '\x0C', '\x1C', '\x1D', '\x1E', '\x1F',
   '\u0085', ' ', ' ', ' ', ' ', ' ', ' ',
   ' ', ' ', ' ', ' ', ' ', ' ', ' ',
   ' ', ' ', ' ', ' ', '　']

/-- The Python str.splitlines() line-boundary characters. -/
def breakChars : Str :=
  ['\n', '\r', '\x0B', '\x0C', '\x1C', '\x1D', '\x1E',
   '\u0085', ' ', ' ']

/-- Python whitespace test (str.isspace on one character). -/
def pyWs (c : Char) : Bool := chMem c wsChars

/-- Python line-break test (the boundaries used by str.splitlines). -/
def isLineBreak (c : Char) : Bool := chMem c breakChars

/-- Length of the leading Python-whitespace run of a string; the amount
consumed by a greedy backslash-s-star at this position. -/
def wsCount (s : Str) : Nat := (s.takeWhile pyWs).length

/-- Python str.strip(): drop leading and trailing whitespace. -/
def pyStrip (s : Str) : Str :=
  ((s.dropWhile pyWs).reverse.dropWhile pyWs).reverse

/-- Python line.split(":", 1): characters before the first colon and the
characters after it; none when the line has no colon. -/
def splitColon : Str → Option (Str × Str)
  | [] => none
  | c :: t =>
    if c = ':' then some ([], t)
    else
      match splitColon t with
      | none => none
      | some p => some (c :: p.1, p.2)

/-- Python "\n".join on a list of lines. -/
def joinNL : List Str → Str
  | [] => []
  | [l] => l
  | l :: l2 :: ls => l ++ '\n' :: joinNL (l2 :: ls)

/-- Split a string at every newline character (exact inverse of joinNL on
newline-free lines); used to state line-structure properties of written
note files. -/
def splitNL : Str → List Str
  | [] => [[]]
  | c :: t =>
    if c = '\n' then [] :: splitNL t
    else
      match splitNL t with
      | [] => [[c]]
      | h :: r => (c :: h) :: r

/-- Worker for Python str.splitlines: cur accumulates the current line in
reverse; a carriage return directly followed by a newline counts as one
boundary. -/
def splitlinesAux : Str → Str → List Str
  | [], cur => if cur = [] then [] else [cur.reverse]
  | '\r' :: '\n' :: r, cur => cur.reverse :: splitlinesAux r []
  | c :: t, cur =>
    if isLineBreak c then cur.reverse :: splitlinesAux t []
    else splitlinesAux t (c :: cur)

/-- Python str.splitlines(). -/
def pySplitlines (s : Str) : List Str := splitlinesAux s []

/-- The three-character delimiter of the frontmatter format. -/
def dashes : Str := ['-', '-', '-']

/-- Whether a string starts with three dashes. -/
def startsDashes (s : Str) : Bool :=
  match s with
  | a :: b :: c :: _ => a == '-' && b == '-' && c == '-'
  | _ => false

/-- Whether three consecutive dashes occur anywhere in a string. -/
def hasTriple : Str → Bool
  | [] => false
  | c :: t => startsDashes (c :: t) || hasTriple t

/-
Model of generate_index.parse_frontmatter.

FRONT_RE matches the pattern caret dash dash dash, backslash-s-star,
a lazy dot-star group, backslash-s-star, dash dash dash,
backslash-s-star, with DOTALL.  The backtracking engine on this pattern:
the first star takes its maximal whitespace run (three dashes cannot
occur inside it), the lazy group takes the least number of characters
after which a whitespace run immediately followed by three dashes
occurs, and the final star greedily extends past the closing dashes.
checkHere and scanB implement exactly that search: at each candidate
offset the whitespace run is skipped and the closing dashes must follow
directly, because a dash is not a whitespace character.
-/

/-- At the current offset: length of the whitespace run, provided the
closing three dashes follow it immediately. -/
def checkHere (u : Str) : Option Nat :=
  if startsDashes (u.drop (wsCount u)) then some (wsCount u) else none

/-- Scan for the least offset b at which the lazy group can stop: returns
(b, length of whitespace run before the closing dashes). -/
def scanB : Str → Option (Nat × Nat)
  | [] => if startsDashes [] then some (0, 0) else none
  | c :: t =>
    match checkHere (c :: t) with
    | some k => some (0, k)
    | none =>
      match scanB t with
      | none => none
      | some p => some (p.1 + 1, p.2)

/-- The span matched by FRONT_RE at the start of the text: the group-1
string and the remainder after the whole match; none when the regex does
not match. -/
def frontMatch (s : Str) : Option (Str × Str) :=
  if startsDashes s then
    match scanB ((s.drop 3).drop (wsCount (s.drop 3))) with
    | none => none
    | some p =>
      some (((s.drop 3).drop (wsCount (s.drop 3))).take p.1,
        (fun rest0 => rest0.drop (wsCount rest0))
          (((s.drop 3).drop (wsCount (s.drop 3))).drop (p.1 + p.2 + 3)))
  else none

/-- Python dict assignment meta[k] = v on an association list kept in
insertion order: overwrite in place, or append when the key is new. -/
def updateMeta : List (Str × Str) → Str → Str → List (Str × Str)
  | [], k, v => [(k, v)]
  | p :: t, k, v =>
    if p.1 = k then (k, v) :: t else p :: updateMeta t k v

/-- One frontmatter line: lines without a colon are ignored, otherwise
split at the first colon and both sides stripped. -/
def processLine (acc : List (Str × Str)) (line : Str) : List (Str × Str) :=
  match splitColon line with
  | none => acc
  | some kv => updateMeta acc (pyStrip kv.1) (pyStrip kv.2)

/-- generate_index.parse_frontmatter: returns (meta, rest); when the
regex does not match, meta is empty and rest is the whole text. -/
def parse_frontmatter (s : Str) : List (Str × Str) × Str :=
  match frontMatch s with
  | none => ([], s)
  | some fr => ((pySplitlines fr.1).foldl processLine [], fr.2)

/-
Note file contents, as written by ocr_utils.create_note_from_image and
by watcher.ocr_image_to_markdown.  Both writers build a list of lines
and join them with a single newline.
-/

/-- A frontmatter line as written by the f-string pattern key colon
space value. -/
def kvline (k v : Str) : Str := k ++ ':' :: ' ' :: v

/-- The topics field: (topics or "general").strip(). -/
def topics_field (topics : Option Str) : Str :=
  pyStrip (topics.getD (("general").data))

/-- The metadata line list of create_note_from_image (ocr_utils.py). -/
def metaLines (ts source orig topics version : Str) : List Str :=
  [dashes,
   kvline (("created_utc").data) ts,
   kvline (("source").data) source,
   kvline (("orig_filename").data) orig,
   kvline (("topics").data) topics,
   kvline (("version").data) version,
   kvline (("ocr_engine").data) (("tesseract").data),
   dashes,
   []]

/-- Body lines: text.splitlines() if text else the no-text marker. -/
def bodyLines (text : Str) : List Str :=
  if text = [] then [("(no text)").data] else pySplitlines text

/-- Full note text written by create_note_from_image, as a function of
the timestamp string, source tag, original filename, optional topics,
version and OCR text. -/
def create_note_text (ts source orig : Str) (topics : Option Str)
    (version : Str) (text : Str) : Str :=
  joinNL (metaLines ts source orig (topics_field topics) version
    ++ bodyLines text)

/-- The metadata line list of ocr_image_to_markdown (watcher.py). -/
def watcherMetaLines (source_tag orig ts : Str) : List Str :=
  [dashes,
   kvline (("source").data) source_tag,
   kvline (("orig_filename").data) orig,
   kvline (("timestamp_utc").data) ts,
   kvline (("ocr_engine").data) (("tesseract").data),
   dashes,
   []]

/-- Full note text written by ocr_image_to_markdown. -/
def ocr_markdown_text (source_tag orig ts text : Str) : Str :=
  joinNL (watcherMetaLines source_tag orig ts ++ bodyLines text)

/-- The serialized body of a note: the OCR text with line boundaries
normalized by splitlines plus join, or the no-text marker. -/
def serializedBody (text : Str) : Str := joinNL (bodyLines text)

/-
Model of ocr_utils.extract_text and ocr_utils.create_note_from_image.
The filesystem and the two external calls (PIL Image.open, pytesseract)
are modelled by an environment recording the outcome of each call.
-/

/-- Python exceptions that can cross the boundaries modelled here. -/
inductive PyErr where
  | fileNotFound
  | unidentifiedImage
  | osError (detail : Str)
  deriving DecidableEq, Repr

/-- Outcome of PIL Image.open on a path. -/
inductive OpenOutcome where
  | ok
  | unidentified
  | raisesOther (e : PyErr)
  deriving DecidableEq, Repr

/-- Environment of one create_note_from_image / extract_text call:
whether the input path exists, how Image.open behaves, and what the
pytesseract call returns (text) or raises (error detail string). -/
structure OcrEnv where
  pathExists : Bool
  openOut : OpenOutcome
  ocr : Except Str Str
  deriving Repr

/-- ocr_utils.extract_text: raises FileNotFoundError when the path does
not exist, re-raises an unreadable-image error, and converts any OCR
failure into the text OCR ERROR marker followed by the detail. -/
def extract_text (env : OcrEnv) : Except PyErr Str :=
  if ¬ env.pathExists then Except.error PyErr.fileNotFound
  else
    match env.openOut with
    | OpenOutcome.unidentified => Except.error PyErr.unidentifiedImage
    | OpenOutcome.raisesOther e => Except.error e
    | OpenOutcome.ok =>
      match env.ocr with
      | Except.ok t => Except.ok t
      | Except.error e => Except.ok (("[OCR ERROR] ").data ++ e)

/-- A written note file: its filename pieces and full content. -/
structure NoteFile where
  content : Str
  deriving DecidableEq, Repr

/-- ocr_utils.create_note_from_image, also returning the final state of
the notes directory (modelled as the list of written notes) so that the
absence of a write on the error path is expressible.  The existence
check happens before OCR and before any write. -/
def create_note_from_image (env : OcrEnv) (ts source orig : Str)
    (topics : Option Str) (version : Str) (fs : List NoteFile) :
    Except PyErr NoteFile × List NoteFile :=
  if ¬ env.pathExists then (Except.error PyErr.fileNotFound, fs)
  else
    match extract_text env with
    | Except.error e => (Except.error e, fs)
    | Except.ok text =>
      (Except.ok ⟨create_note_text ts source orig topics version text⟩,
       fs ++ [⟨create_note_text ts source orig topics version text⟩])

/-
Model of watcher.wait_for_file_complete.  Real time is idealized: poll i
of the file size happens after i sleeps of the poll interval, at elapsed
time i times 0.35 seconds; the default timeout is 10 seconds.  Times are
scaled by 100 to stay in natural numbers (35 per poll, limit 1000).  A
missing file reads as size -1 (the FileNotFoundError branch).  The loop
is given fuel; the termination theorem shows the fuel 31 is never
exhausted, so the Option result is always some. -/
def waitLoop (sizes : Nat → Int) : Int → Nat → Nat → Option Bool
  | _, _, 0 => none
  | last, i, fuel + 1 =>
    if sizes i = last ∧ 0 < sizes i then some true
    else if 35 * i > 1000 then some false
    else waitLoop sizes (sizes i) (i + 1) fuel

/-- watcher.wait_for_file_complete with the default timeout and poll
interval, over the idealized sequence of observed sizes. -/
def wait_for_file_complete (sizes : Nat → Int) : Option Bool :=
  waitLoop sizes (-1) 0 31

/-
Model of git_ops.git_add_commit_push.  The git library calls are
abstracted by an environment of call outcomes; the trace records which
mutating operations were performed, so that no-op and single-retry
properties are expressible.
-/

/-- Outcome of an origin.push call: returns with clean flags, returns
with the ERROR bit set in the first push-info, raises GitCommandError,
or raises some other exception. -/
inductive PushOutcome where
  | okFlags
  | errFlags
  | raisesGit
  | raisesOther
  deriving DecidableEq, Repr

/-- Outcome of repo.git.pull with rebase: succeeds, raises
GitCommandError (triggering the plain-pull fallback), or raises some
other exception (propagating to the retry handler). -/
inductive PullOutcome where
  | ok
  | raisesGit
  | raisesOther
  deriving DecidableEq, Repr

/-- Environment of one git_add_commit_push call. -/
structure GitEnv where
  repoValid : Bool
  isDirty : Bool
  hasUntracked : Bool
  addOk : Bool
  commitOk : Bool
  hasRemotes : Bool
  push1 : PushOutcome
  fetchOk : Bool
  pullRebase : PullOutcome
  pullPlainOk : Bool
  push2 : PushOutcome
  deriving Repr

/-- git_ops.GitOpsResult. -/
structure GitOpsResult where
  ok : Bool
  message : String
  deriving DecidableEq, Repr

/-- Mutating git operations performed during one call. -/
structure GitTrace where
  commits : Nat
  pushAttempts : Nat
  retries : Nat
  deriving DecidableEq, Repr

def noTrace : GitTrace := ⟨0, 0, 0⟩

/-- The push retry block of git_add_commit_push: fetch, pull with rebase
falling back to a plain pull, then push again; any exception inside it
yields the push-failed-after-pull result.  The retried push result is
not inspected for error flags. -/
def gitRetryBlock (env : GitEnv) : GitOpsResult × GitTrace :=
  if ¬ env.fetchOk then (⟨false, "Push failed after pull: fetch failed"⟩, ⟨1, 1, 1⟩)
  else
    match env.pullRebase with
    | PullOutcome.raisesOther =>
      (⟨false, "Push failed after pull: pull raised"⟩, ⟨1, 1, 1⟩)
    | PullOutcome.raisesGit =>
      if ¬ env.pullPlainOk then
        (⟨false, "Push failed after pull: pull raised"⟩, ⟨1, 1, 1⟩)
      else
        match env.push2 with
        | PushOutcome.raisesGit =>
          (⟨false, "Push failed after pull: push raised"⟩, ⟨1, 2, 1⟩)
        | PushOutcome.raisesOther =>
          (⟨false, "Push failed after pull: push raised"⟩, ⟨1, 2, 1⟩)
        | _ => (⟨true, "Push complete after pull/rebase."⟩, ⟨1, 2, 1⟩)
    | PullOutcome.ok =>
      match env.push2 with
      | PushOutcome.raisesGit =>
        (⟨false, "Push failed after pull: push raised"⟩, ⟨1, 2, 1⟩)
      | PushOutcome.raisesOther =>
        (⟨false, "Push failed after pull: push raised"⟩, ⟨1, 2, 1⟩)
      | _ => (⟨true, "Push complete after pull/rebase."⟩, ⟨1, 2, 1⟩)

/-- git_ops.git_add_commit_push.  Returns the result together with the
trace of mutating operations. -/
def git_add_commit_push (env : GitEnv) (retry_on_rejected : Bool) :
    GitOpsResult × GitTrace :=
  if ¬ env.repoValid then
    (⟨false, "Not a git repository. Initialize one with git init."⟩, noTrace)
  else if ¬ env.isDirty ∧ ¬ env.hasUntracked then
    (⟨false, "No changes to commit (clean working tree)."⟩, noTrace)
  else if ¬ env.addOk then
    (⟨false, "git add failed"⟩, noTrace)
  else if ¬ env.commitOk then
    (⟨false, "git commit failed"⟩, noTrace)
  else if ¬ env.hasRemotes then
    (⟨false, "No remotes configured; cannot push."⟩, ⟨1, 0, 0⟩)
  else
    match env.push1 with
    | PushOutcome.okFlags => (⟨true, "Push complete."⟩, ⟨1, 1, 0⟩)
    | PushOutcome.raisesOther =>
      (⟨false, "Push failed: unexpected error"⟩, ⟨1, 1, 0⟩)
    | _ =>
      if retry_on_rejected then gitRetryBlock env
      else (⟨false, "Push failed: rejected"⟩, ⟨1, 1, 0⟩)

/-
Model of clipboard_monitor.grab_poll_loop: one poll step per clipboard
observation.  The image type, its PNG re-encoding and the hash function
are parameters; the duplicate filter only applies to direct image data,
while a clipboard file list is saved without consulting the seen set.
-/

/-- One observation of the clipboard: nothing (or a grab error, treated
as nothing), a file list (only its first element is used by the code),
or direct image data. -/
inductive ClipItem (Img : Type) where
  | empty
  | fileRef (p : Str)
  | image (im : Img)

/-- External collaborators of the poll loop. -/
structure ClipEnv (Img : Type) where
  pngBytes : Img → List Nat
  pyHash : List Nat → Int
  fileExists : Str → Bool
  openImage : Str → Option Img

/-- State of the poll loop: process-lifetime fingerprint set and the
saved capture files (the saved images, in order). -/
structure ClipState (Img : Type) where
  seen : List Int
  saved : List Img

/-- One iteration of the grab_poll_loop body on one clipboard
observation. -/
def grab_poll_step {Img : Type} (env : ClipEnv Img)
    (st : ClipState Img) : ClipItem Img → ClipState Img
  | ClipItem.empty => st
  | ClipItem.fileRef p =>
    if env.fileExists p then
      match env.openImage p with
      | some im => ⟨st.seen, st.saved ++ [im]⟩
      | none => st
    else st
  | ClipItem.image im =>
    if env.pyHash (env.pngBytes im) ∈ st.seen then st
    else ⟨env.pyHash (env.pngBytes im) :: st.seen, st.saved ++ [im]⟩

/-- The poll loop over a finite sequence of clipboard observations. -/
def grab_poll_run {Img : Type} (env : ClipEnv Img)
    (items : List (ClipItem Img)) (st : ClipState Img) : ClipState Img :=
  items.foldl (grab_poll_step env) st

/-
Model of generate_index: _parse_iso, the sort key of build_index, and
the comparison semantics of Python datetime objects.  A datetime value
is an instant plus an awareness flag; comparing a naive and an aware
datetime raises TypeError, which the model propagates through the sort.
-/

/-- A Python datetime: timezone-aware or naive, with its instant. -/
structure PyDT where
  aware : Bool
  v : Int
  deriving DecidableEq, Repr

/-- datetime.min: a naive datetime smaller than every realistic
timestamp (realistic instants are modelled as positive). -/
def dtMin : PyDT := ⟨false, 0⟩

/-- Outcome of datetime.fromisoformat on a created_utc string: an aware
instant (strings carrying a UTC offset, as written by ocr_utils), a
naive instant, or a parse failure. -/
inductive IsoOutcome where
  | awareVal (v : Int)
  | naiveVal (v : Int)
  | bad
  deriving DecidableEq, Repr

/-- generate_index._parse_iso: None on unparseable input, otherwise the
parsed datetime. -/
def parse_iso : IsoOutcome → Option PyDT
  | IsoOutcome.awareVal v => some ⟨true, v⟩
  | IsoOutcome.naiveVal v => some ⟨false, v⟩
  | IsoOutcome.bad => none

/-- Python comparison of two datetimes: TypeError (modelled as error)
when one is aware and the other naive. -/
def pyLtDT (a b : PyDT) : Except Unit Bool :=
  if a.aware = b.aware then Except.ok (decide (a.v < b.v))
  else Except.error ()

/-- One row entry of build_index: the parsed created_dt (None when the
timestamp is missing or unparseable) plus a payload identifying the
note. -/
structure IdxEntry where
  created_dt : Option PyDT
  payload : Nat
  deriving DecidableEq, Repr

/-- The sort key of build_index: e.created_dt or datetime.min. -/
def idxKey (e : IdxEntry) : PyDT := e.created_dt.getD dtMin

/-- Stable insertion into a descending-sorted list, with the fallible
datetime comparison; an element is placed before the first strictly
smaller key, so equal keys keep their original order. -/
def insertDesc (x : IdxEntry) : List IdxEntry → Except Unit (List IdxEntry)
  | [] => Except.ok [x]
  | y :: t =>
    match pyLtDT (idxKey x) (idxKey y) with
    | Except.error e => Except.error e
    | Except.ok true =>
      match insertDesc x t with
      | Except.error e => Except.error e
      | Except.ok r => Except.ok (y :: r)
    | Except.ok false => Except.ok (x :: y :: t)

/-- The sort performed by build_index: sorted(entries, key, reverse);
stable, descending by key, and raising TypeError as soon as a naive and
an aware key are compared (on a two-element list Python's sort performs
exactly that one comparison). -/
def build_index_order : List IdxEntry → Except Unit (List IdxEntry)
  | [] => Except.ok []
  | x :: t =>
    match build_index_order t with
    | Except.error e => Except.error e
    | Except.ok r => insertDesc x r

/-
Model of watcher.ocr_image_to_markdown and NewImageHandler.on_created.
-/

/-- The allowed image extensions of watcher.py (lower-cased suffix). -/
def allowedExt : List Str :=
  [(".png").data, (".jpg").data, (".jpeg").data, (".bmp").data,
   (".tiff").data, (".tif").data, (".webp").data]

/-- A filesystem path as seen by the watcher: its lower-cased suffix,
stem and name. -/
structure PathV where
  suffix : Str
  stem : Str
  name : Str
  deriving DecidableEq, Repr

/-- Environment of one ocr_image_to_markdown call: the sizes observed by
the stability gate, how Image.open behaves, the pytesseract outcome, the
timestamp string, and whether the final write raises. -/
structure WatchEnv where
  sizes : Nat → Int
  openOut : OpenOutcome
  ocr : Except Str Str
  ts : Str
  writeErr : Option PyErr

/-- watcher.ocr_image_to_markdown: None for unsupported or unreadable
files, the written note otherwise; OCR failure becomes note content; an
unhandled exception (from Image.open other than UnidentifiedImageError,
or from the write) propagates. -/
def ocr_image_to_markdown (env : WatchEnv) (p : PathV) (source_tag : Str) :
    Except PyErr (Option NoteFile) :=
  if ¬ (p.suffix ∈ allowedExt) then Except.ok none
  else
    let _stable := wait_for_file_complete env.sizes
    match env.openOut with
    | OpenOutcome.unidentified => Except.ok none
    | OpenOutcome.raisesOther e => Except.error e
    | OpenOutcome.ok =>
      match env.writeErr with
      | some e => Except.error e
      | none =>
        Except.ok (some ⟨ocr_markdown_text source_tag p.name env.ts
          (match env.ocr with
           | Except.ok t => t
           | Except.error e => ("[OCR ERROR] ").data ++ e)⟩)

/-- NewImageHandler.on_created: drop the event when the path is already
in flight; otherwise mark it, run the pipeline, and clear the mark in a
finally block (after the guard delay, which real time hides from this
model).  There is no except clause: the pipeline outcome, error or not,
is returned as the handler outcome. -/
def on_created (env : WatchEnv) (busy : List PathV) (p : PathV) :
    Except PyErr (Option NoteFile) × List PathV :=
  if p ∈ busy then (Except.ok none, busy)
  else
    (ocr_image_to_markdown env p (("screenshot").data),
     (p :: busy).erase p)

/-
Derived descriptions of the note layout, used to state the claims.
-/

/-- Well-formedness of a frontmatter key as it appears in both writers:
nonempty, no whitespace, no colon, no dash.  Every key the two writers
emit satisfies this. -/
def keyOK (k : Str) : Prop :=
  k ≠ [] ∧ ∀ c ∈ k, pyWs c = false ∧ c ≠ ':' ∧ c ≠ '-'

/-- Cleanliness of a serialized frontmatter value: no line-break
character, no run of three dashes, and no leading or trailing
whitespace. -/
def valOK (v : Str) : Prop :=
  (∀ c ∈ v, isLineBreak c = false) ∧ hasTriple v = false ∧ pyStrip v = v

instance (k : Str) : Decidable (keyOK k) := by
  unfold keyOK
  infer_instance

instance (v : Str) : Decidable (valOK v) := by
  unfold valOK
  infer_instance

/-- The frontmatter block of a list of key/value pairs: the key colon
space value lines joined by newlines. -/
def kvblock (pairs : List (Str × Str)) : Str :=
  joinNL (pairs.map (fun p => kvline p.1 p.2))

/-- The overall layout of a written note: opening dashes, newline, the
frontmatter block, newline, closing dashes, a blank line, then the
body. -/
def noteShape (K B : Str) : Str :=
  dashes ++ '\n' :: (K ++ '\n' :: (dashes ++ '\n' :: '\n' :: B))

/-- The six key/value pairs serialized by create_note_from_image, in
order. -/
def sixPairs (ts source orig topicsf version : Str) : List (Str × Str) :=
  [((("created_utc").data), ts),
   ((("source").data), source),
   ((("orig_filename").data), orig),
   ((("topics").data), topicsf),
   ((("version").data), version),
   ((("ocr_engine").data), (("tesseract").data))]

/-- The four key/value pairs serialized by ocr_image_to_markdown, in
order. -/
def fourPairs (source_tag orig ts : Str) : List (Str × Str) :=
  [((("source").data), source_tag),
   ((("orig_filename").data), orig),
   ((("timestamp_utc").data), ts),
   ((("ocr_engine").data), (("tesseract").data))]

/-- The key written on a frontmatter line: the text before the first
colon. -/
def keyPart (line : Str) : Str := line.takeWhile (fun c => c != ':')

/-- The lines strictly before the first closing dashes line. -/
def takeUntilDashes : List Str → Option (List Str)
  | [] => none
  | l :: t =>
    if l = dashes then some []
    else
      match takeUntilDashes t with
      | none => none
      | some r => some (l :: r)

/-- The frontmatter line block of a written file, read back line by
line: the lines between the opening dashes line and the closing dashes
line. -/
def fmLines (content : Str) : Option (List Str) :=
  match splitNL content with
  | [] => none
  | f :: rest => if f = dashes then takeUntilDashes rest else none

/-- The frontmatter keys of a written file, in order of appearance. -/
def noteFmKeys (content : Str) : Option (List Str) :=
  (fmLines content).map (fun ls => ls.map keyPart)

/-- The observed-size sequence of the C6 counterexample: strictly
growing until poll 28, then constant; the first two equal consecutive
non-zero sizes are polls 28 and 29, and poll 29 happens at elapsed time
10.15 seconds, after the 10 second timeout has already elapsed. -/
def lateStableSizes (i : Nat) : Int :=
  if i ≤ 28 then (i : Int) + 1 else 29

/-- The value of the last variable of wait_for_file_complete when poll i
is about to read the size: -1 before the first poll, otherwise the size
seen by the previous poll. -/
def lastVal (sizes : Nat → Int) (i : Nat) : Int :=
  if i = 0 then -1 else sizes (i - 1)

/-- Poll i observes a stable file: the same non-zero size as the
previous poll (never true at poll 0, whose comparison value is -1). -/
def stableAt (sizes : Nat → Int) (i : Nat) : Prop :=
  sizes i = lastVal sizes i ∧ 0 < sizes i

instance (sizes : Nat → Int) (i : Nat) : Decidable (stableAt sizes i) := by
  unfold stableAt
  infer_instance

/-
Basic lemmas about the character classes and string helpers.
-/

theorem dropWhile_len_le (p : Char → Bool) :
    ∀ l : Str, (l.dropWhile p).length ≤ l.length := by
  intro l
  induction l with
  | nil => simp
  | cons a t ih =>
    rw [List.dropWhile_cons]
    split
    · exact Nat.le_succ_of_le ih
    · simp

theorem ws_of_break {c : Char} (h : isLineBreak c = true) : pyWs c = true := by
  simp [isLineBreak, chMem, breakChars] at h
  rcases h with h|h|h|h|h|h|h|h|h|h <;> (subst h; decide)

theorem not_break_of_not_ws {c : Char} (h : pyWs c = false) :
    isLineBreak c = false := by
  cases hb : isLineBreak c with
  | false => rfl
  | true => rw [ws_of_break hb] at h; cases h

theorem newline_ws : pyWs '\n' = true := by decide

theorem dash_not_ws : pyWs '-' = false := by decide

theorem wsCount_nil : wsCount [] = 0 := rfl

theorem wsCount_cons_false {c : Char} (t : Str) (h : pyWs c = false) :
    wsCount (c :: t) = 0 := by
  simp [wsCount, List.takeWhile_cons, h]

theorem wsCount_cons_true {c : Char} (t : Str) (h : pyWs c = true) :
    wsCount (c :: t) = wsCount t + 1 := by
  simp [wsCount, List.takeWhile_cons, h]

theorem wsCount_append_nonws {x : Char} (W R : Str)
    (hW : ∀ c ∈ W, pyWs c = true) (hx : pyWs x = false) :
    wsCount (W ++ x :: R) = W.length := by
  induction W with
  | nil => simpa using wsCount_cons_false R hx
  | cons w W2 ih =>
    have hw : pyWs w = true := hW w (by simp)
    rw [List.cons_append, wsCount_cons_true _ hw,
      ih (fun c hc => hW c (by simp [hc]))]
    simp

theorem dropWhile_cons_head {p : Char → Bool} :
    ∀ (l : Str) {x : Str} {c : Char}, l.dropWhile p = c :: x → p c = false := by
  intro l
  induction l with
  | nil => intro x c h; cases h
  | cons a t ih =>
    intro x c h
    by_cases ha : p a
    · rw [List.dropWhile_cons, if_pos ha] at h
      exact ih h
    · rw [List.dropWhile_cons, if_neg ha] at h
      cases h
      simpa using ha

theorem takeWhile_mem_true {p : Char → Bool} :
    ∀ (l : Str) (c : Char), c ∈ l.takeWhile p → p c = true := by
  intro l
  induction l with
  | nil => intro c h; cases h
  | cons a t ih =>
    intro c h
    by_cases ha : p a
    · rw [List.takeWhile_cons, if_pos ha] at h
      rcases List.mem_cons.mp h with h1 | h1
      · exact h1 ▸ ha
      · exact ih c h1
    · rw [List.takeWhile_cons, if_neg ha] at h
      cases h

theorem dropWhile_eq_self_of_len {p : Char → Bool} :
    ∀ (l : Str), (l.dropWhile p).length = l.length → l.dropWhile p = l := by
  intro l
  induction l with
  | nil => intro _; rfl
  | cons a t ih =>
    intro h
    by_cases ha : p a
    · rw [List.dropWhile_cons, if_pos ha] at h
      have := dropWhile_len_le p t
      simp at h
      omega
    · rw [List.dropWhile_cons, if_neg ha]

theorem pyStrip_no_ws (l : Str) (h : ∀ c ∈ l, pyWs c = false) :
    pyStrip l = l := by
  have h1 : l.dropWhile pyWs = l := by
    cases l with
    | nil => rfl
    | cons a t => rw [List.dropWhile_cons, if_neg (by simp [h a (by simp)])]
  have h2 : l.reverse.dropWhile pyWs = l.reverse := by
    cases hr : l.reverse with
    | nil => rfl
    | cons a t =>
      have ha : a ∈ l := by
        have : a ∈ l.reverse := by rw [hr]; simp
        simpa using this
      rw [List.dropWhile_cons, if_neg (by simp [h a ha])]
  simp [pyStrip, h1, h2]

theorem pyStrip_self_dropWhile {v : Str} (h : pyStrip v = v) :
    v.dropWhile pyWs = v := by
  apply dropWhile_eq_self_of_len
  have e1 := dropWhile_len_le pyWs v
  have e2 := dropWhile_len_le pyWs ((v.dropWhile pyWs).reverse)
  have hlen : (pyStrip v).length = v.length := by rw [h]
  simp only [pyStrip, List.length_reverse] at hlen
  simp at e2
  omega

theorem pyStrip_cons_ws {c : Char} {v : Str} (hc : pyWs c = true)
    (h : pyStrip v = v) : pyStrip (c :: v) = v := by
  have h1 : (c :: v).dropWhile pyWs = v.dropWhile pyWs := by
    rw [List.dropWhile_cons, if_pos (by simp [hc])]
  rw [pyStrip, h1, pyStrip_self_dropWhile h]
  have : v.reverse.dropWhile pyWs = v.reverse := by
    have hv := h
    rw [pyStrip] at hv
    rw [pyStrip_self_dropWhile h] at hv
    apply dropWhile_eq_self_of_len
    have e2 := dropWhile_len_le pyWs v.reverse
    have : (v.reverse.dropWhile pyWs).reverse.length = v.reverse.length := by
      rw [hv]; simp
    simp at this
    simp [this]
  rw [this]
  simp

theorem pyStrip_head_last {v : Str} (h : pyStrip v = v) :
    (∀ c t, v = c :: t → pyWs c = false) ∧
      (∀ c, v.getLast? = some c → pyWs c = false) := by
  constructor
  · intro c t hv
    have h1 := pyStrip_self_dropWhile h
    rw [hv] at h1
    exact dropWhile_cons_head _ h1
  · intro c hc
    have h2 : v.reverse.dropWhile pyWs = v.reverse := by
      have hv := h
      rw [pyStrip, pyStrip_self_dropWhile h] at hv
      apply dropWhile_eq_self_of_len
      have : (v.reverse.dropWhile pyWs).reverse.length = v.length := by
        rw [hv]
      simp at this
      simp [this]
    have hrev : v.reverse = c :: (v.reverse.tail) := by
      cases hr : v.reverse with
      | nil =>
        have : v = [] := by simpa using congrArg List.reverse hr
        subst this
        cases hc
      | cons a t =>
        have : v.getLast? = some a := by
          rw [← List.head?_reverse, hr]; rfl
        rw [this] at hc
        cases hc
        rfl
    rw [hrev] at h2
    exact dropWhile_cons_head _ h2

/-
Lemmas about joinNL, splitNL and pySplitlines.
-/

theorem joinNL_cons_of_ne (l : Str) (ls : List Str) (h : ls ≠ []) :
    joinNL (l :: ls) = l ++ '\n' :: joinNL ls := by
  cases ls with
  | nil => cases h rfl
  | cons l2 ls2 => rfl

theorem joinNL_append (ls ms : List Str) (h1 : ls ≠ []) (h2 : ms ≠ []) :
    joinNL (ls ++ ms) = joinNL ls ++ '\n' :: joinNL ms := by
  induction ls with
  | nil => cases h1 rfl
  | cons l ls2 ih =>
    cases ls2 with
    | nil => simp [joinNL_cons_of_ne l ms h2, joinNL]
    | cons a b =>
      rw [List.cons_append,
        joinNL_cons_of_ne l ((a :: b) ++ ms) (by simp),
        joinNL_cons_of_ne l (a :: b) (by simp),
        ih (by simp)]
      simp

theorem joinNL_head (l : Str) (ls : List Str) :
    ∃ X : Str, joinNL (l :: ls) = l ++ X := by
  cases ls with
  | nil => exact ⟨[], by simp [joinNL]⟩
  | cons a b => exact ⟨'\n' :: joinNL (a :: b), rfl⟩

theorem splitNL_ne_nil (s : Str) : splitNL s ≠ [] := by
  cases s with
  | nil => simp [splitNL]
  | cons c t =>
    rw [splitNL]
    split
    · simp
    · split <;> simp

theorem splitNL_no_newline (l : Str) (h : ∀ c ∈ l, c ≠ '\n') :
    splitNL l = [l] := by
  induction l with
  | nil => rfl
  | cons c t ih =>
    rw [splitNL, if_neg (h c (by simp)),
      ih (fun c2 hc2 => h c2 (by simp [hc2]))]

theorem splitNL_append (l rest : Str) (h : ∀ c ∈ l, c ≠ '\n') :
    splitNL (l ++ '\n' :: rest) = l :: splitNL rest := by
  induction l with
  | nil => simp [splitNL]
  | cons c t ih =>
    rw [List.cons_append, splitNL, if_neg (h c (by simp)),
      ih (fun c2 hc2 => h c2 (by simp [hc2]))]

theorem splitNL_joinNL (ls : List Str) (hne : ls ≠ [])
    (h : ∀ l ∈ ls, ∀ c ∈ l, c ≠ '\n') :
    splitNL (joinNL ls) = ls := by
  induction ls with
  | nil => cases hne rfl
  | cons l ls2 ih =>
    cases ls2 with
    | nil => exact splitNL_no_newline l (h l (by simp))
    | cons a b =>
      rw [joinNL_cons_of_ne l (a :: b) (by simp),
        splitNL_append _ _ (h l (by simp)),
        ih (by simp) (fun l2 hl2 => h l2 (by simp [hl2]))]

theorem splitlinesAux_cons_not_break {c : Char} (t cur : Str)
    (h : isLineBreak c = false) :
    splitlinesAux (c :: t) cur = splitlinesAux t (c :: cur) := by
  rw [splitlinesAux.eq_3]
  · rw [if_neg (by simp [h])]
  · intro r he1 he2
    subst he1
    exact absurd h (by decide)

theorem splitlinesAux_newline (rest cur : Str) :
    splitlinesAux ('\n' :: rest) cur
      = cur.reverse :: splitlinesAux rest [] := by
  rw [splitlinesAux.eq_3]
  · rw [if_pos (by decide)]
  · intro r he1 he2
    cases he1

theorem splitlinesAux_crlf (r cur : Str) :
    splitlinesAux ('\r' :: '\n' :: r) cur
      = cur.reverse :: splitlinesAux r [] := rfl

theorem splitlinesAux_chunk (l : Str) (hl : ∀ c ∈ l, isLineBreak c = false) :
    ∀ (r cur : Str), splitlinesAux (l ++ r) cur
      = splitlinesAux r (l.reverse ++ cur) := by
  induction l with
  | nil => intro r cur; simp
  | cons c t ih =>
    intro r cur
    rw [List.cons_append, splitlinesAux_cons_not_break _ _ (hl c (by simp)),
      ih (fun c2 hc2 => hl c2 (by simp [hc2]))]
    simp

theorem splitlinesAux_nil (cur : Str) (h : cur ≠ []) :
    splitlinesAux [] cur = [cur.reverse] := by
  rw [splitlinesAux, if_neg h]

theorem pySplitlines_joinNL (ls : List Str) (hne : ls ≠ [])
    (h : ∀ l ∈ ls, l ≠ [] ∧ ∀ c ∈ l, isLineBreak c = false) :
    pySplitlines (joinNL ls) = ls := by
  induction ls with
  | nil => cases hne rfl
  | cons l ls2 ih =>
    cases ls2 with
    | nil =>
      show splitlinesAux (joinNL [l]) [] = [l]
      have hj : joinNL [l] = l ++ [] := by simp [joinNL]
      rw [hj, splitlinesAux_chunk l (h l (by simp)).2,
        splitlinesAux_nil _ (by simpa using (h l (by simp)).1)]
      simp
    | cons a b =>
      show splitlinesAux (joinNL (l :: a :: b)) [] = l :: a :: b
      rw [joinNL_cons_of_ne l (a :: b) (by simp),
        splitlinesAux_chunk l (h l (by simp)).2,
        splitlinesAux_newline]
      have := ih (by simp) (fun l2 hl2 => h l2 (by simp [hl2]))
      simp [pySplitlines] at this
      simp [this]

theorem splitlinesAux_lines_no_break :
    ∀ (n : Nat) (s cur : Str), s.length ≤ n →
      (∀ c ∈ cur, isLineBreak c = false) →
      ∀ l ∈ splitlinesAux s cur, ∀ c ∈ l, isLineBreak c = false := by
  intro n
  induction n with
  | zero =>
    intro s cur hlen hcur l hl
    have hs : s = [] := by
      cases s with
      | nil => rfl
      | cons a t => simp at hlen
    subst hs
    rw [splitlinesAux] at hl
    split at hl
    · cases hl
    · rcases List.mem_singleton.mp hl with rfl
      intro c hc
      exact hcur c (by simpa using hc)
  | succ n ih =>
    intro s cur hlen hcur l hl
    cases s with
    | nil =>
      rw [splitlinesAux] at hl
      split at hl
      · cases hl
      · rcases List.mem_singleton.mp hl with rfl
        intro c hc
        exact hcur c (by simpa using hc)
    | cons a t =>
      by_cases hcr : a = '\r' ∧ ∃ r, t = '\n' :: r
      · obtain ⟨rfl, r, rfl⟩ := hcr
        rw [splitlinesAux_crlf] at hl
        rcases List.mem_cons.mp hl with rfl | hl2
        · intro c hc
          exact hcur c (by simpa using hc)
        · exact ih r [] (by simp at hlen; omega) (by simp) l hl2
      · have heq3 : splitlinesAux (a :: t) cur
            = if isLineBreak a = true then cur.reverse :: splitlinesAux t []
              else splitlinesAux t (a :: cur) := by
          rw [splitlinesAux.eq_3]
          intro r he1 he2
          exact hcr ⟨he1, r, he2⟩
        rw [heq3] at hl
        by_cases hb : isLineBreak a = true
        · rw [if_pos hb] at hl
          rcases List.mem_cons.mp hl with rfl | hl2
          · intro c hc
            exact hcur c (by simpa using hc)
          · exact ih t [] (by simpa using hlen) (by simp) l hl2
        · rw [if_neg hb] at hl
          refine ih t (a :: cur) (by simpa using hlen) ?_ l hl
          intro c hc
          rcases List.mem_cons.mp hc with rfl | hc2
          · simpa using hb
          · exact hcur c hc2

/-- Every line produced by pySplitlines is free of line-break
characters, in particular free of newlines. -/
theorem pySplitlines_no_break (s : Str) :
    ∀ l ∈ pySplitlines s, ∀ c ∈ l, isLineBreak c = false :=
  splitlinesAux_lines_no_break s.length s [] (Nat.le_refl _) (by simp)

theorem pySplitlines_ne_nil (s : Str) (h : s ≠ []) :
    pySplitlines s ≠ [] := by
  cases s with
  | nil => cases h rfl
  | cons c t =>
    show splitlinesAux (c :: t) [] ≠ []
    have hgen : ∀ (m : Nat) (s2 cur : Str), s2.length ≤ m → cur ≠ [] →
        splitlinesAux s2 cur ≠ [] := by
      intro m
      induction m with
      | zero =>
        intro s2 cur hlen hcur
        have hs : s2 = [] := by
          cases s2 with
          | nil => rfl
          | cons a t2 => simp at hlen
        subst hs
        rw [splitlinesAux, if_neg hcur]
        simp
      | succ m ihm =>
        intro s2 cur hlen hcur
        cases s2 with
        | nil => rw [splitlinesAux, if_neg hcur]; simp
        | cons a t2 =>
          by_cases hcr : a = '\r' ∧ ∃ r, t2 = '\n' :: r
          · obtain ⟨rfl, r, rfl⟩ := hcr
            rw [splitlinesAux_crlf]
            simp
          · have heq3 : splitlinesAux (a :: t2) cur
                = if isLineBreak a = true
                  then cur.reverse :: splitlinesAux t2 []
                  else splitlinesAux t2 (a :: cur) := by
              rw [splitlinesAux.eq_3]
              intro r he1 he2
              exact hcr ⟨he1, r, he2⟩
            rw [heq3]
            by_cases hb : isLineBreak a = true
            · rw [if_pos hb]
              simp
            · rw [if_neg hb]
              exact ihm t2 (a :: cur) (by simpa using hlen) (by simp)
    by_cases hcr : c = '\r' ∧ ∃ r, t = '\n' :: r
    · obtain ⟨rfl, r, rfl⟩ := hcr
      rw [splitlinesAux_crlf]
      simp
    · have heq3 : splitlinesAux (c :: t) []
          = if isLineBreak c = true then [].reverse :: splitlinesAux t []
            else splitlinesAux t (c :: []) := by
        rw [splitlinesAux.eq_3]
        intro r he1 he2
        exact hcr ⟨he1, r, he2⟩
      rw [heq3]
      by_cases hb : isLineBreak c = true
      · rw [if_pos hb]
        simp
      · rw [if_neg hb]
        exact hgen t.length t [c] (Nat.le_refl _) (by simp)

theorem bodyLines_ne_nil (text : Str) : bodyLines text ≠ [] := by
  unfold bodyLines
  split
  · simp
  · exact pySplitlines_ne_nil text (by assumption)

/-
Lemmas about startsDashes, hasTriple, checkHere and scanB: the regex
search of parse_frontmatter.
-/

theorem startsDashes_cons_ne {c : Char} (t : Str) (h : c ≠ '-') :
    startsDashes (c :: t) = false := by
  cases t with
  | nil => rfl
  | cons b t2 =>
    cases t2 with
    | nil => rfl
    | cons d t3 => simp [startsDashes, h]

theorem startsDashes_snd_ne {b : Char} (a : Char) (t : Str) (h : b ≠ '-') :
    startsDashes (a :: b :: t) = false := by
  cases t with
  | nil => rfl
  | cons d t2 => simp [startsDashes, h]

theorem startsDashes_third_ne {d : Char} (a b : Char) (t : Str)
    (h : d ≠ '-') : startsDashes (a :: b :: d :: t) = false := by
  simp [startsDashes, h]

theorem startsDashes_append_nl (l rest : Str) :
    startsDashes (l ++ '\n' :: rest) = startsDashes l := by
  match l with
  | [] =>
    rw [List.nil_append, @startsDashes_cons_ne '\n' rest (by decide)]
    rfl
  | [a] =>
    show startsDashes (a :: '\n' :: rest) = startsDashes [a]
    rw [startsDashes_snd_ne a rest (by decide)]
    rfl
  | [a, b] =>
    show startsDashes (a :: b :: '\n' :: rest) = startsDashes [a, b]
    rw [startsDashes_third_ne a b rest (by decide)]
    rfl
  | a :: b :: d :: t => rfl

theorem hasTriple_cons_ne {c : Char} (t : Str) (h : c ≠ '-') :
    hasTriple (c :: t) = hasTriple t := by
  rw [hasTriple, startsDashes_cons_ne t h]
  simp

theorem hasTriple_append_left {a : Str} (b : Str)
    (h : ∀ c ∈ a, c ≠ '-') : hasTriple (a ++ b) = hasTriple b := by
  induction a with
  | nil => rfl
  | cons c t ih =>
    rw [List.cons_append, hasTriple_cons_ne _ (h c (by simp)),
      ih (fun c2 hc2 => h c2 (by simp [hc2]))]

theorem hasTriple_append_nl (l rest : Str) :
    hasTriple (l ++ '\n' :: rest) = (hasTriple l || hasTriple rest) := by
  induction l with
  | nil =>
    rw [List.nil_append]
    simp only [hasTriple]
    rw [@startsDashes_cons_ne '\n' rest (by decide)]
  | cons c t ih =>
    rw [List.cons_append, hasTriple, ih,
      show (c :: (t ++ '\n' :: rest)) = (c :: t) ++ '\n' :: rest from rfl,
      startsDashes_append_nl, hasTriple]
    simp [Bool.or_assoc]

theorem hasTriple_append_right (a : Str) {b : Str}
    (h : hasTriple b = true) : hasTriple (a ++ b) = true := by
  induction a with
  | nil => simpa
  | cons c t ih =>
    rw [List.cons_append, hasTriple]
    simp [ih]

theorem hasTriple_tail {c : Char} {t : Str} (h : hasTriple (c :: t) = false) :
    hasTriple t = false := by
  rw [hasTriple] at h
  simp at h
  exact h.2

theorem hasTriple_drop {K : Str} (h : hasTriple K = false) :
    ∀ i, hasTriple (K.drop i) = false := by
  induction K with
  | nil => intro i; simp [hasTriple]
  | cons c t ih =>
    intro i
    cases i with
    | zero => exact h
    | succ j => exact ih (hasTriple_tail h) j

theorem getLast?_drop_of_lt {K : Str} :
    ∀ i, i < K.length → (K.drop i).getLast? = K.getLast? := by
  intro i hi
  have hsplit : K = K.take i ++ K.drop i := by simp
  have hne : K.drop i ≠ [] := by
    intro hd
    have := List.length_drop i K
    rw [hd] at this
    simp at this
    omega
  conv_rhs => rw [hsplit]
  rw [List.getLast?_append]
  cases hdl : (K.drop i).getLast? with
  | none =>
    cases hne (List.getLast?_eq_none_iff.mp hdl)
  | some c => rfl

/-- At an offset inside a clean block (no triple dash, last character
not whitespace), the closing-dashes check fails: the whitespace run from
that offset stops inside the block at a non-dash character, and a dash
pair cannot span the block boundary because a newline follows. -/
theorem checkHere_none_clean (S T2 : Str) (hne : S ≠ [])
    (htrip : hasTriple S = false)
    (hlast : ∃ c, S.getLast? = some c ∧ pyWs c = false) :
    checkHere (S ++ '\n' :: T2) = none := by
  rcases hD : S.dropWhile pyWs with _ | ⟨x, S2⟩
  · exfalso
    rcases hlast with ⟨c, hc1, hc2⟩
    have hcmem : c ∈ S := by
      have h6 := List.getLast?_eq_getLast S hne
      rw [h6] at hc1
      have h5 : S.getLast hne = c := Option.some_inj.mp hc1
      rw [← h5]
      exact List.getLast_mem hne
    have hall : ∀ x ∈ S, pyWs x = true := by
      intro x hx
      have h7 := List.takeWhile_append_dropWhile pyWs S
      rw [hD, List.append_nil] at h7
      rw [← h7] at hx
      exact takeWhile_mem_true S x hx
    rw [hall c hcmem] at hc2
    cases hc2
  · have px : pyWs x = false := dropWhile_cons_head S hD
    have hS : S = S.takeWhile pyWs ++ x :: S2 := by
      conv_lhs => rw [← List.takeWhile_append_dropWhile pyWs S, hD]
    have hWmem : ∀ c ∈ S.takeWhile pyWs, pyWs c = true :=
      fun c hc => takeWhile_mem_true S c hc
    rw [checkHere]
    have harr : S ++ '\n' :: T2
        = S.takeWhile pyWs ++ x :: (S2 ++ '\n' :: T2) := by
      conv_lhs => rw [hS]
      simp
    rw [harr, wsCount_append_nonws _ _ hWmem px, List.drop_left]
    have hfalse : startsDashes (x :: (S2 ++ '\n' :: T2)) = false := by
      rcases S2 with _ | ⟨y, S3⟩
      · simp only [List.nil_append]
        exact startsDashes_snd_ne x T2 (by decide)
      · rcases S3 with _ | ⟨z, S4⟩
        · exact startsDashes_third_ne x y T2 (by decide)
        · show startsDashes (x :: y :: z :: (S4 ++ '\n' :: T2)) = false
          by_cases hd : x = '-' ∧ y = '-' ∧ z = '-'
          · exfalso
            rcases hd with ⟨rfl, rfl, rfl⟩
            have h3 : hasTriple ('-' :: '-' :: '-' :: S4) = true := by
              simp only [hasTriple]
              simp [startsDashes]
            have h4 : hasTriple S = true := by
              rw [hS]
              exact hasTriple_append_right _ h3
            rw [h4] at htrip
            cases htrip
          · by_cases hx : x = '-'
            · by_cases hy : y = '-'
              · by_cases hz : z = '-'
                · exact absurd ⟨hx, hy, hz⟩ hd
                · exact startsDashes_third_ne x y _ hz
              · exact startsDashes_snd_ne x _ hy
            · exact startsDashes_cons_ne _ hx
    rw [hfalse]
    simp

theorem scanB_concat {T : Str} (c0 : Nat) (hT : checkHere T = some c0) :
    ∀ K : Str, (∀ i, i < K.length → checkHere (K.drop i ++ T) = none) →
      scanB (K ++ T) = some (K.length, c0) := by
  intro K
  induction K with
  | nil =>
    intro _
    cases T with
    | nil =>
      rw [checkHere] at hT
      simp [wsCount, startsDashes] at hT
    | cons c t =>
      show scanB (c :: t) = some (0, c0)
      simp only [scanB, hT]
  | cons k K2 ih =>
    intro h
    have h0 : checkHere (k :: (K2 ++ T)) = none := by
      have h1 := h 0 (by simp)
      simpa using h1
    show scanB (k :: (K2 ++ T)) = some (K2.length + 1, c0)
    simp only [scanB, h0]
    rw [ih (fun i hi => by
      have h2 := h (i + 1) (by simpa using Nat.succ_lt_succ hi)
      simpa using h2)]

theorem checkHere_closing (R : Str) :
    checkHere ('\n' :: (dashes ++ R)) = some 1 := by
  show checkHere ('\n' :: '-' :: '-' :: '-' :: R) = some 1
  rw [checkHere, wsCount_cons_true _ (by decide),
    wsCount_cons_false _ (by decide)]
  simp [startsDashes]

/-- The FRONT_RE match on a note laid out as noteShape: the group is
exactly the frontmatter block and the remainder is exactly the body,
provided the block starts and ends with non-whitespace characters,
contains no triple dash, and the body does not start with whitespace. -/
theorem frontMatch_block (K B : Str)
    (hhead : ∃ x K2, K = x :: K2 ∧ pyWs x = false)
    (htrip : hasTriple K = false)
    (hlast : ∃ c, K.getLast? = some c ∧ pyWs c = false)
    (hB : wsCount B = 0) :
    frontMatch (noteShape K B) = some (K, B) := by
  have hsD : startsDashes (noteShape K B) = true := by
    show startsDashes
      ('-' :: '-' :: '-' :: '\n' :: (K ++ '\n' :: (dashes ++ '\n' :: '\n' :: B)))
      = true
    simp [startsDashes]
  have hdrop3 : (noteShape K B).drop 3
      = '\n' :: (K ++ '\n' :: (dashes ++ '\n' :: '\n' :: B)) := rfl
  have hwsK : wsCount (K ++ '\n' :: (dashes ++ '\n' :: '\n' :: B)) = 0 := by
    rcases hhead with ⟨x, K2, rfl, px⟩
    rw [List.cons_append]
    exact wsCount_cons_false _ px
  have hws1 : wsCount ('\n' :: (K ++ '\n' :: (dashes ++ '\n' :: '\n' :: B)))
      = 1 := by
    rw [wsCount_cons_true _ (by decide), hwsK]
  have hT : checkHere ('\n' :: (dashes ++ '\n' :: '\n' :: B)) = some 1 :=
    checkHere_closing _
  have hKnone : ∀ i, i < K.length →
      checkHere (K.drop i ++ '\n' :: (dashes ++ '\n' :: '\n' :: B)) = none := by
    intro i hi
    apply checkHere_none_clean
    · intro hd
      have hlen := List.length_drop i K
      rw [hd] at hlen
      simp at hlen
      omega
    · exact hasTriple_drop htrip i
    · rcases hlast with ⟨c, hc1, hc2⟩
      exact ⟨c, by rw [getLast?_drop_of_lt i hi, hc1], hc2⟩
  have hscan : scanB (K ++ '\n' :: (dashes ++ '\n' :: '\n' :: B))
      = some (K.length, 1) := scanB_concat 1 hT K hKnone
  have htake : (K ++ '\n' :: (dashes ++ '\n' :: '\n' :: B)).take K.length
      = K := List.take_left K _
  have hdropEnd : (K ++ '\n' :: (dashes ++ '\n' :: '\n' :: B)).drop
      (K.length + 1 + 3) = '\n' :: '\n' :: B := by
    have h4 : K.length + 1 + 3 = K.length + 4 := by omega
    rw [h4, List.drop_append 4]
    rfl
  have hwsB : wsCount B = 0 := hB
  have hwsRest : wsCount ('\n' :: '\n' :: B) = 2 := by
    rw [wsCount_cons_true _ (by decide), wsCount_cons_true _ (by decide),
      hwsB]
  have hdropRest : ('\n' :: '\n' :: B).drop (wsCount ('\n' :: '\n' :: B))
      = B := by
    rw [hwsRest]
    rfl
  unfold frontMatch
  rw [if_pos hsD, hdrop3, hws1]
  have hdrop1 : ('\n' :: (K ++ '\n' :: (dashes ++ '\n' :: '\n' :: B))).drop 1
      = K ++ '\n' :: (dashes ++ '\n' :: '\n' :: B) := rfl
  rw [hdrop1, hscan]
  simp only [htake, hdropEnd, hdropRest]

/-
Lemmas about the frontmatter lines written by the two note writers and
about recovering the key/value pairs from them.
-/

theorem kvline_no_break {k v : Str} (hk : keyOK k) (hv : valOK v) :
    ∀ c ∈ kvline k v, isLineBreak c = false := by
  intro c hc
  rw [kvline] at hc
  rcases List.mem_append.mp hc with hck | hcr
  · exact not_break_of_not_ws ((hk.2 c hck).1)
  · rcases List.mem_cons.mp hcr with rfl | hcr2
    · decide
    · rcases List.mem_cons.mp hcr2 with rfl | hcv
      · decide
      · exact hv.1 c hcv

theorem kvline_ne_nil {k : Str} (v : Str) (hk : keyOK k) :
    kvline k v ≠ [] := by
  rcases hkc : k with _ | ⟨c, kt⟩
  · exact absurd hkc hk.1
  · simp [kvline]

theorem kvline_hasTriple {k v : Str} (hk : keyOK k) (hv : valOK v) :
    hasTriple (kvline k v) = false := by
  rw [kvline, hasTriple_append_left _ (fun c hc => (hk.2 c hc).2.2),
    hasTriple_cons_ne _ (by decide), hasTriple_cons_ne _ (by decide)]
  exact hv.2.1

theorem splitColon_kvline {k : Str} (v : Str) (hk : ∀ c ∈ k, c ≠ ':') :
    splitColon (kvline k v) = some (k, ' ' :: v) := by
  induction k with
  | nil => rfl
  | cons a t ih =>
    have ha : a ≠ ':' := hk a (by simp)
    show splitColon (a :: kvline t v) = some (a :: t, ' ' :: v)
    simp only [splitColon, if_neg ha,
      ih (fun c hc => hk c (by simp [hc]))]

theorem processLine_kvline (acc : List (Str × Str)) {k v : Str}
    (hk : keyOK k) (hv : pyStrip v = v) :
    processLine acc (kvline k v) = updateMeta acc k v := by
  simp only [processLine,
    splitColon_kvline v (fun c hc => (hk.2 c hc).2.1)]
  rw [pyStrip_no_ws k (fun c hc => (hk.2 c hc).1),
    pyStrip_cons_ws (by decide) hv]

theorem updateMeta_append (acc : List (Str × Str)) (k : Str) (v : Str)
    (h : ¬ k ∈ acc.map Prod.fst) : updateMeta acc k v = acc ++ [(k, v)] := by
  induction acc with
  | nil => rfl
  | cons p t ih =>
    have h1 : ¬ (p.1 = k) := by
      intro e
      exact h (by simp [e])
    simp only [updateMeta, if_neg h1]
    rw [ih (by intro hm; exact h (by simp [hm]))]
    simp

theorem foldl_processLine (pairs : List (Str × Str)) :
    ∀ acc : List (Str × Str),
      (∀ p ∈ pairs, keyOK p.1 ∧ pyStrip p.2 = p.2) →
      (∀ p ∈ pairs, ¬ p.1 ∈ acc.map Prod.fst) →
      (pairs.map Prod.fst).Nodup →
      (pairs.map (fun p => kvline p.1 p.2)).foldl processLine acc
        = acc ++ pairs := by
  induction pairs with
  | nil => intro acc _ _ _; simp
  | cons p ps ih =>
    intro acc hOK hNot hNodup
    simp only [List.map_cons, List.foldl_cons]
    rw [processLine_kvline acc (hOK p (by simp)).1 (hOK p (by simp)).2,
      updateMeta_append acc p.1 p.2 (hNot p (by simp))]
    have hpair : acc ++ [(p.1, p.2)] = acc ++ [p] := by simp
    rw [hpair, ih (acc ++ [p]) (fun q hq => hOK q (by simp [hq]))
      (fun q hq => by
        have hnc : ¬ p.1 ∈ ps.map Prod.fst ∧ (ps.map Prod.fst).Nodup := by
          rw [List.map_cons] at hNodup
          exact List.nodup_cons.mp hNodup
        simp only [List.map_append, List.mem_append]
        intro hmem
        rcases hmem with hacc | hhd
        · exact hNot q (by simp [hq]) hacc
        · simp at hhd
          exact hnc.1 (hhd ▸ List.mem_map_of_mem Prod.fst hq))
      (by
        rw [List.map_cons] at hNodup
        exact (List.nodup_cons.mp hNodup).2)]
    simp

/-
Lemmas about the whole frontmatter block of a list of pairs.
-/

theorem kvblock_hasTriple (pairs : List (Str × Str))
    (h : ∀ p ∈ pairs, keyOK p.1 ∧ valOK p.2) :
    hasTriple (kvblock pairs) = false := by
  induction pairs with
  | nil => rfl
  | cons p ps ih =>
    cases ps with
    | nil =>
      show hasTriple (joinNL [kvline p.1 p.2]) = false
      simp only [joinNL]
      exact kvline_hasTriple (h p (by simp)).1 (h p (by simp)).2
    | cons q qs =>
      show hasTriple (joinNL (kvline p.1 p.2
        :: (q :: qs).map (fun r => kvline r.1 r.2))) = false
      rw [joinNL_cons_of_ne _ _ (by simp), hasTriple_append_nl,
        kvline_hasTriple (h p (by simp)).1 (h p (by simp)).2]
      have ih2 := ih (fun r hr => h r (by simp [hr]))
      rw [kvblock] at ih2
      rw [ih2]
      rfl

theorem kvblock_head (p : Str × Str) (ps : List (Str × Str))
    (hk : keyOK p.1) :
    ∃ x K2, kvblock (p :: ps) = x :: K2 ∧ pyWs x = false := by
  rcases hkc : p.1 with _ | ⟨c, kt⟩
  · exact absurd hkc hk.1
  · obtain ⟨X, hX⟩ := joinNL_head (kvline p.1 p.2)
      (ps.map (fun r => kvline r.1 r.2))
    refine ⟨c, kt ++ ':' :: ' ' :: p.2 ++ X, ?_, ?_⟩
    · show joinNL (kvline p.1 p.2 :: ps.map (fun r => kvline r.1 r.2))
        = c :: (kt ++ ':' :: ' ' :: p.2 ++ X)
      rw [hX, kvline, hkc]
      simp
    · exact (hk.2 c (by simp [hkc])).1

theorem joinNL_concat_ne_nil (ls : List Str) (l : Str) (hl : l ≠ []) :
    joinNL (ls ++ [l]) ≠ [] := by
  cases ls with
  | nil => simpa [joinNL] using hl
  | cons a ls2 =>
    rw [List.cons_append, joinNL_cons_of_ne a (ls2 ++ [l]) (by simp)]
    simp

theorem joinNL_getLast (ls : List Str) (l : Str) (hl : l ≠ []) :
    (joinNL (ls ++ [l])).getLast? = l.getLast? := by
  induction ls with
  | nil => simp [joinNL]
  | cons a ls2 ih =>
    rw [List.cons_append, joinNL_cons_of_ne a (ls2 ++ [l]) (by simp),
      List.getLast?_append]
    have hJne : joinNL (ls2 ++ [l]) ≠ [] := joinNL_concat_ne_nil ls2 l hl
    rcases hJc : joinNL (ls2 ++ [l]) with _ | ⟨j, J2⟩
    · exact absurd hJc hJne
    · rw [hJc] at ih
      rw [List.getLast?_cons_cons, ih]
      have : ∃ c, l.getLast? = some c :=
        ⟨l.getLast hl, List.getLast?_eq_getLast l hl⟩
      rcases this with ⟨c, hc⟩
      rw [hc]
      rfl

theorem kvline_getLast {k v : Str} (hvne : v ≠ []) :
    (kvline k v).getLast? = v.getLast? := by
  have : kvline k v = (k ++ [':', ' ']) ++ v := by
    rw [kvline]
    simp
  rw [this, List.getLast?_append]
  have : ∃ c, v.getLast? = some c :=
    ⟨v.getLast hvne, List.getLast?_eq_getLast v hvne⟩
  rcases this with ⟨c, hc⟩
  rw [hc]
  rfl

theorem kvblock_getLast (pairs : List (Str × Str))
    (h : ∀ p ∈ pairs, keyOK p.1 ∧ valOK p.2)
    (hlastv : ∃ q, pairs.getLast? = some q ∧ q.2 ≠ []) :
    ∃ c, (kvblock pairs).getLast? = some c ∧ pyWs c = false := by
  rcases hlastv with ⟨q, hq, hqne⟩
  rcases List.eq_nil_or_concat pairs with rfl | ⟨L, b, hLb⟩
  · cases hq
  · rw [List.concat_eq_append] at hLb
    subst hLb
    have hb : b = q := by
      rw [List.getLast?_concat] at hq
      exact Option.some_inj.mp hq
    subst hb
    have hbOK := h b (by simp)
    have hkv : kvblock (L ++ [b])
        = joinNL ((L.map (fun r => kvline r.1 r.2)) ++ [kvline b.1 b.2]) := by
      rw [kvblock, List.map_append]
      rfl
    rw [hkv, joinNL_getLast _ _ (kvline_ne_nil b.2 hbOK.1),
      kvline_getLast hqne]
    have hstrip := (pyStrip_head_last hbOK.2.2.2).2
    have : ∃ c, b.2.getLast? = some c :=
      ⟨b.2.getLast hqne, List.getLast?_eq_getLast b.2 hqne⟩
    rcases this with ⟨c, hc⟩
    exact ⟨c, hc, hstrip c hc⟩

theorem kvblock_splitlines (pairs : List (Str × Str)) (hne : pairs ≠ [])
    (h : ∀ p ∈ pairs, keyOK p.1 ∧ valOK p.2) :
    pySplitlines (kvblock pairs) = pairs.map (fun p => kvline p.1 p.2) := by
  apply pySplitlines_joinNL
  · simpa using hne
  · intro l hl
    rcases List.mem_map.mp hl with ⟨p, hp, rfl⟩
    exact ⟨kvline_ne_nil p.2 (h p hp).1,
      kvline_no_break (h p hp).1 (h p hp).2⟩

/-- Parsing a note laid out as noteShape over a clean pair list recovers
exactly the pairs and the body. -/
theorem parse_frontmatter_note (pairs : List (Str × Str)) (B : Str)
    (h : ∀ p ∈ pairs, keyOK p.1 ∧ valOK p.2)
    (hne : pairs ≠ [])
    (hlastv : ∃ q, pairs.getLast? = some q ∧ q.2 ≠ [])
    (hnd : (pairs.map Prod.fst).Nodup)
    (hB : wsCount B = 0) :
    parse_frontmatter (noteShape (kvblock pairs) B) = (pairs, B) := by
  have hhead : ∃ x K2, kvblock pairs = x :: K2 ∧ pyWs x = false := by
    rcases pairs with _ | ⟨p, ps⟩
    · cases hne rfl
    · exact kvblock_head p ps (h p (by simp)).1
  have hfm := frontMatch_block (kvblock pairs) B hhead
    (kvblock_hasTriple pairs h) (kvblock_getLast pairs h hlastv) hB
  unfold parse_frontmatter
  rw [hfm]
  show (List.foldl processLine [] (pySplitlines (kvblock pairs)), B)
    = (pairs, B)
  rw [kvblock_splitlines pairs hne h,
    foldl_processLine pairs []
      (fun p hp => ⟨(h p hp).1, (h p hp).2.2.2⟩)
      (fun p _ => by simp) hnd]
  simp

/-
The two writers produce exactly the noteShape layout over their pair
lists and the serialized body.
-/

theorem create_note_text_shape (ts source orig : Str) (topics : Option Str)
    (version text : Str) :
    create_note_text ts source orig topics version text
      = noteShape
          (kvblock (sixPairs ts source orig (topics_field topics) version))
          (serializedBody text) := by
  unfold create_note_text noteShape serializedBody
  have hbl := bodyLines_ne_nil text
  have h1 : metaLines ts source orig (topics_field topics) version
        ++ bodyLines text
      = dashes ::
        (((sixPairs ts source orig (topics_field topics) version).map
          (fun p => kvline p.1 p.2))
          ++ ([dashes, []] ++ bodyLines text)) := rfl
  rw [h1, joinNL_cons_of_ne _ _ (by simp),
    joinNL_append _ _ (by simp [sixPairs]) (by simp),
    show ([dashes, []] ++ bodyLines text)
      = dashes :: ([] :: bodyLines text) from rfl,
    joinNL_cons_of_ne _ _ (by simp),
    joinNL_cons_of_ne [] (bodyLines text) hbl, kvblock]
  simp

theorem ocr_markdown_text_shape (source_tag orig ts text : Str) :
    ocr_markdown_text source_tag orig ts text
      = noteShape (kvblock (fourPairs source_tag orig ts))
          (serializedBody text) := by
  unfold ocr_markdown_text noteShape serializedBody
  have hbl := bodyLines_ne_nil text
  have h1 : watcherMetaLines source_tag orig ts ++ bodyLines text
      = dashes ::
        (((fourPairs source_tag orig ts).map (fun p => kvline p.1 p.2))
          ++ ([dashes, []] ++ bodyLines text)) := rfl
  rw [h1, joinNL_cons_of_ne _ _ (by simp),
    joinNL_append _ _ (by simp [fourPairs]) (by simp),
    show ([dashes, []] ++ bodyLines text)
      = dashes :: ([] :: bodyLines text) from rfl,
    joinNL_cons_of_ne _ _ (by simp),
    joinNL_cons_of_ne [] (bodyLines text) hbl, kvblock]
  simp

/-
Support lemmas for the line-level reading of a written note (fmLines,
noteFmKeys) and for body prefixes.
-/

theorem takeUntilDashes_append (ls : List Str) (rest : List Str)
    (h : ∀ l ∈ ls, l ≠ dashes) :
    takeUntilDashes (ls ++ dashes :: rest) = some ls := by
  induction ls with
  | nil => simp [takeUntilDashes]
  | cons l t ih =>
    rw [List.cons_append, takeUntilDashes, if_neg (h l (by simp)),
      ih (fun l2 hl2 => h l2 (by simp [hl2]))]

theorem keyPart_kvline (k v : Str) (hk : ∀ c ∈ k, c ≠ ':') :
    keyPart (kvline k v) = k := by
  induction k with
  | nil =>
    show keyPart (':' :: ' ' :: v) = []
    simp [keyPart, List.takeWhile_cons]
  | cons a t ih =>
    show keyPart (a :: kvline t v) = a :: t
    rw [keyPart, List.takeWhile_cons,
      if_pos (by simp [hk a (by simp)])]
    have := ih (fun c hc => hk c (by simp [hc]))
    rw [keyPart] at this
    rw [this]

theorem kvline_ne_dashes {k : Str} (v : Str) (hk : keyOK k) :
    kvline k v ≠ dashes := by
  rcases hkc : k with _ | ⟨c, kt⟩
  · exact absurd hkc hk.1
  · intro he
    have hc : c = '-' := by
      have : kvline (c :: kt) v = c :: (kt ++ ':' :: ' ' :: v) := rfl
      rw [this] at he
      have := List.head_eq_of_cons_eq he
      exact this
    exact (hk.2 c (by simp [hkc])).2.2 hc

theorem splitlinesAux_head :
    ∀ (n : Nat) (rest cur : Str), rest.length ≤ n → cur ≠ [] →
      ∃ l r2, splitlinesAux rest cur = (cur.reverse ++ l) :: r2 := by
  intro n
  induction n with
  | zero =>
    intro rest cur hlen hcur
    have hs : rest = [] := by
      cases rest with
      | nil => rfl
      | cons a t => simp at hlen
    subst hs
    exact ⟨[], [], by rw [splitlinesAux, if_neg hcur]; simp⟩
  | succ n ih =>
    intro rest cur hlen hcur
    cases rest with
    | nil => exact ⟨[], [], by rw [splitlinesAux, if_neg hcur]; simp⟩
    | cons a t =>
      by_cases hcr : a = '\r' ∧ ∃ r, t = '\n' :: r
      · obtain ⟨rfl, r, rfl⟩ := hcr
        exact ⟨[], splitlinesAux r [], by rw [splitlinesAux_crlf]; simp⟩
      · have heq3 : splitlinesAux (a :: t) cur
            = if isLineBreak a = true then cur.reverse :: splitlinesAux t []
              else splitlinesAux t (a :: cur) := by
          rw [splitlinesAux.eq_3]
          intro r he1 he2
          exact hcr ⟨he1, r, he2⟩
        by_cases hb : isLineBreak a = true
        · exact ⟨[], splitlinesAux t [],
            by rw [heq3, if_pos hb]; simp⟩
        · obtain ⟨l, r2, hl⟩ := ih t (a :: cur) (by simpa using hlen)
            (by simp)
          refine ⟨[a] ++ l, r2, ?_⟩
          rw [heq3, if_neg hb, hl]
          simp

theorem serializedBody_prefix (p rest : Str) (hp : p ≠ [])
    (hpb : ∀ c ∈ p, isLineBreak c = false) :
    ∃ t2, serializedBody (p ++ rest) = p ++ t2 := by
  have hne : p ++ rest ≠ [] := by simp [hp]
  have h1 : bodyLines (p ++ rest) = splitlinesAux rest p.reverse := by
    rw [bodyLines, if_neg hne]
    show splitlinesAux (p ++ rest) [] = splitlinesAux rest p.reverse
    rw [splitlinesAux_chunk p hpb]
    simp
  obtain ⟨l, r2, hl⟩ := splitlinesAux_head rest.length rest p.reverse
    (Nat.le_refl _) (by simpa using hp)
  rw [serializedBody, h1, hl]
  simp
  obtain ⟨X, hX⟩ := joinNL_head (p ++ l) r2
  rw [hX]
  exact ⟨l ++ X, by simp⟩

/-
Lemmas about the wait_for_file_complete loop.
-/

theorem waitLoop_isSome (sizes : Nat → Int) :
    ∀ (fuel i : Nat) (last : Int), 1 ≤ fuel →
      1000 < 35 * (i + fuel - 1) →
      (waitLoop sizes last i fuel).isSome = true := by
  intro fuel
  induction fuel with
  | zero => intro i last h1 _; exact absurd h1 (by omega)
  | succ fuel ih =>
    intro i last _ hbound
    by_cases h1 : sizes i = last ∧ 0 < sizes i
    · simp only [waitLoop]
      rw [if_pos h1]
      rfl
    · by_cases h2 : 35 * i > 1000
      · simp only [waitLoop]
        rw [if_neg h1, if_pos h2]
        rfl
      · rcases Nat.eq_zero_or_pos fuel with rfl | hf
        · exfalso
          simp at hbound
          omega
        · have h3 := ih (i + 1) (sizes i) hf (by omega)
          simp only [waitLoop]
          rw [if_neg h1, if_neg h2]
          exact h3

theorem waitLoop_true_iff (sizes : Nat → Int) :
    ∀ (fuel i : Nat),
      (waitLoop sizes (lastVal sizes i) i fuel = some true ↔
        ∃ j, i ≤ j ∧ j < i + fuel ∧ stableAt sizes j ∧
          ∀ k, i ≤ k → k < j → ¬ stableAt sizes k ∧ 35 * k ≤ 1000) := by
  intro fuel
  induction fuel with
  | zero =>
    intro i
    constructor
    · intro h
      simp [waitLoop] at h
    · rintro ⟨j, hj1, hj2, _, _⟩
      exact absurd hj2 (by omega)
  | succ fuel ih =>
    intro i
    by_cases h1 : stableAt sizes i
    · have hc : sizes i = lastVal sizes i ∧ 0 < sizes i := h1
      have heq : waitLoop sizes (lastVal sizes i) i (fuel + 1)
          = some true := by
        simp only [waitLoop]
        rw [if_pos hc]
      rw [heq]
      constructor
      · intro _
        exact ⟨i, le_refl i, by omega, h1,
          fun k hk1 hk2 => absurd hk1 (by omega)⟩
      · intro _
        rfl
    · have hc : ¬ (sizes i = lastVal sizes i ∧ 0 < sizes i) := h1
      by_cases h2 : 35 * i > 1000
      · have hval : waitLoop sizes (lastVal sizes i) i (fuel + 1)
            = some false := by
          simp only [waitLoop]
          rw [if_neg hc, if_pos h2]
        rw [hval]
        constructor
        · intro h
          simp at h
        · rintro ⟨j, hj1, hj2, hst, hmin⟩
          exfalso
          rcases Nat.eq_or_lt_of_le hj1 with rfl | hlt
          · exact h1 hst
          · exact absurd (hmin i (le_refl i) hlt).2 (by omega)
      · have hstep : waitLoop sizes (lastVal sizes i) i (fuel + 1)
            = waitLoop sizes (sizes i) (i + 1) fuel := by
          simp only [waitLoop]
          rw [if_neg hc, if_neg h2]
        have hlv : lastVal sizes (i + 1) = sizes i := by
          simp [lastVal]
        rw [hstep, ← hlv, ih (i + 1)]
        constructor
        · rintro ⟨j, hj1, hj2, hst, hmin⟩
          refine ⟨j, by omega, by omega, hst, ?_⟩
          intro k hk1 hk2
          rcases Nat.eq_or_lt_of_le hk1 with rfl | hklt
          · exact ⟨h1, by omega⟩
          · exact hmin k (by omega) hk2
        · rintro ⟨j, hj1, hj2, hst, hmin⟩
          have hji : i ≠ j := by
            rintro rfl
            exact h1 hst
          refine ⟨j, by omega, by omega, hst, ?_⟩
          intro k hk1 hk2
          exact hmin k (by omega) hk2

/-
Helpers for the line-level statements of C1.
-/

theorem bodyLines_no_nl (text : Str) :
    ∀ l ∈ bodyLines text, ∀ c ∈ l, c ≠ '\n' := by
  intro l hl c hc
  unfold bodyLines at hl
  split at hl
  · rcases List.mem_singleton.mp hl with rfl
    exact (by decide : ∀ c2 ∈ (("(no text)").data), c2 ≠ '\n') c hc
  · have hb := pySplitlines_no_break text l hl c hc
    intro he
    subst he
    exact absurd hb (by decide)

theorem kvline_no_nl {k v : Str} (hk : ∀ c ∈ k, c ≠ '\n')
    (hv : ∀ c ∈ v, c ≠ '\n') : ∀ c ∈ kvline k v, c ≠ '\n' := by
  intro c hc
  simp only [kvline] at hc
  rcases List.mem_append.mp hc with hr | hr
  · exact hk c hr
  · rcases List.mem_cons.mp hr with rfl | hr2
    · decide
    · rcases List.mem_cons.mp hr2 with rfl | hr3
      · decide
      · exact hv c hr3

theorem noteLines_general (mlines : List Str) (text : Str)
    (hne : mlines ≠ [])
    (hm : ∀ l ∈ mlines, ∀ c ∈ l, c ≠ '\n') :
    splitNL (joinNL (mlines ++ bodyLines text))
      = mlines ++ bodyLines text := by
  apply splitNL_joinNL
  · simp [hne]
  · intro l hl
    rcases List.mem_append.mp hl with h1 | h1
    · exact hm l h1
    · exact bodyLines_no_nl text l h1

theorem noteFmKeys_general (pairs : List (Str × Str)) (text : Str)
    (hk : ∀ p ∈ pairs, keyOK p.1)
    (hnl : ∀ p ∈ pairs, ∀ c ∈ kvline p.1 p.2, c ≠ '\n') :
    noteFmKeys (joinNL ((dashes :: (pairs.map (fun p => kvline p.1 p.2)
        ++ [dashes, []])) ++ bodyLines text))
      = some (pairs.map Prod.fst) := by
  have hmlines : ∀ l ∈ dashes :: (pairs.map (fun p => kvline p.1 p.2)
      ++ [dashes, []]), ∀ c ∈ l, c ≠ '\n' := by
    intro l hl
    rcases List.mem_cons.mp hl with rfl | hl2
    · decide
    · rcases List.mem_append.mp hl2 with hl3 | hl3
      · rcases List.mem_map.mp hl3 with ⟨p, hp, rfl⟩
        exact hnl p hp
      · rcases List.mem_cons.mp hl3 with rfl | hl4
        · decide
        · rcases List.mem_singleton.mp hl4 with rfl
          intro c hc
          cases hc
  have hsplit := noteLines_general _ text (by simp) hmlines
  have hshape : (dashes :: (pairs.map (fun p => kvline p.1 p.2)
        ++ [dashes, []])) ++ bodyLines text
      = dashes :: (pairs.map (fun p => kvline p.1 p.2)
          ++ (dashes :: ([] :: bodyLines text))) := by
    simp
  have hfm : fmLines (joinNL ((dashes :: (pairs.map
        (fun p => kvline p.1 p.2) ++ [dashes, []])) ++ bodyLines text))
      = takeUntilDashes (pairs.map (fun p => kvline p.1 p.2)
          ++ (dashes :: ([] :: bodyLines text))) := by
    unfold fmLines
    rw [hsplit, hshape]
    simp
  rw [noteFmKeys, hfm,
    takeUntilDashes_append _ _ (fun l hl => by
      rcases List.mem_map.mp hl with ⟨p, hp, rfl⟩
      exact kvline_ne_dashes p.2 (hk p hp))]
  simp only [Option.map_some', Option.some.injEq, List.map_map]
  apply List.map_congr_left
  intro p hp
  exact keyPart_kvline p.1 p.2 (fun c hc => ((hk p hp).2 c hc).2.1)

/-
The claims.
-/

/-- C6 counterexample: the claim as stated is false.  With the default
timeout and poll interval, on the size sequence lateStableSizes the
first pair of equal consecutive non-zero sizes is observed only at poll
29 (elapsed time 10.15 seconds, after the 10 second timeout has
elapsed), and no such pair exists at any poll up to 28 (all polls at or
before the timeout); nevertheless wait_for_file_complete returns True,
because the stability check is evaluated before the timeout check. -/
theorem c6_claim_cex :
    wait_for_file_complete lateStableSizes = some true ∧
    ∀ i, i < 29 → 1 ≤ i →
      ¬ (lateStableSizes i = lateStableSizes (i - 1) ∧
        0 < lateStableSizes i) := by
  constructor
  · decide
  · decide

/-- C6 (amended): wait_for_file_complete always terminates with a
boolean (the fuel 31 of the model is never exhausted) and never raises;
it returns True exactly when some poll i with 1 ≤ i ≤ 29 observes the
same non-zero size as poll i-1 — that is, stability observed at any
poll up to and including the first poll after the timeout has elapsed
(poll 29, at 10.15 seconds), because the stability check has priority
over the timeout check; otherwise it returns False. -/
theorem c6_wait_amended :
    (∀ sizes : Nat → Int, (wait_for_file_complete sizes).isSome = true) ∧
    (∀ sizes : Nat → Int,
      (wait_for_file_complete sizes = some true ↔
        ∃ i, 1 ≤ i ∧ i ≤ 29 ∧ sizes i = sizes (i - 1) ∧ 0 < sizes i)) := by
  constructor
  · intro sizes
    exact waitLoop_isSome sizes 31 0 (-1) (by omega) (by omega)
  · intro sizes
    have h0 : (-1 : Int) = lastVal sizes 0 := rfl
    have hmain := waitLoop_true_iff sizes 31 0
    show waitLoop sizes (-1) 0 31 = some true ↔ _
    rw [h0, hmain]
    constructor
    · rintro ⟨j, hj1, hj2, hst, hmin⟩
      have hj0 : j ≠ 0 := by
        rintro rfl
        have he : sizes 0 = -1 := by
          have h2 := hst.1
          simpa [lastVal] using h2
        have hp := hst.2
        omega
      have hj29 : j ≤ 29 := by
        by_contra hgt
        push_neg at hgt
        have hk := hmin 29 (by omega) (by omega)
        omega
      refine ⟨j, by omega, hj29, ?_, hst.2⟩
      have h2 := hst.1
      simp only [lastVal] at h2
      rwa [if_neg hj0] at h2
    · rintro ⟨i0, hi1, hi29, heq, hpos⟩
      have hi0P : stableAt sizes i0 := by
        simp only [stableAt, lastVal]
        rw [if_neg (by omega : ¬ i0 = 0)]
        exact ⟨heq, hpos⟩
      have hP : ∃ j, stableAt sizes j := ⟨i0, hi0P⟩
      have hfle : Nat.find hP ≤ i0 := Nat.find_min' hP hi0P
      refine ⟨Nat.find hP, by omega, by omega, Nat.find_spec hP, ?_⟩
      intro k hk1 hk2
      exact ⟨Nat.find_min hP hk2, by omega⟩

/-- C6 witness: on a constantly-positive size sequence the gate reports
stability. -/
theorem c6_wait_witness :
    wait_for_file_complete (fun _ => (5 : Int)) = some true :=
  (c6_wait_amended.2 (fun _ => (5 : Int))).mpr
    ⟨1, by omega, by omega, rfl, by decide⟩

/-- C9 counterexample: the claim as stated is false.  For the input
image a.png, source s, default topics, version 1.0 — all of whose
serialized values contain no newline and no triple dash — and the OCR
text consisting of a space followed by hi, the rest text returned by
parse_frontmatter is not the serialized body: the trailing greedy
whitespace of FRONT_RE consumes the body's leading space. -/
theorem c9_claim_cex :
    (parse_frontmatter (create_note_text (("T").data) (("s").data)
      (("a.png").data) none (("1.0").data) ((" hi").data))).2
      ≠ serializedBody ((" hi").data) := by decide

/-- C9 (amended): the frontmatter of a note written by
create_note_from_image round-trips through parse_frontmatter — the six
serialized key/value pairs are recovered exactly and the rest equals
the serialized body — provided the serialized values additionally
contain no other line-break character, no leading or trailing
whitespace, and the serialized body is empty or starts with a
non-whitespace character. -/
theorem c9_roundtrip_amended (ts source orig : Str) (topics : Option Str)
    (version text : Str)
    (h1 : valOK ts) (h2 : valOK source) (h3 : valOK orig)
    (h4 : valOK (topics_field topics)) (h5 : valOK version)
    (h6 : wsCount (serializedBody text) = 0) :
    parse_frontmatter (create_note_text ts source orig topics version text)
      = (sixPairs ts source orig (topics_field topics) version,
        serializedBody text) := by
  rw [create_note_text_shape]
  refine parse_frontmatter_note _ _ ?_ (by simp [sixPairs])
    ⟨((("ocr_engine").data), (("tesseract").data)), ?_, by decide⟩ ?_ h6
  · intro p hp
    simp [sixPairs] at hp
    rcases hp with rfl | rfl | rfl | rfl | rfl | rfl
    · exact ⟨show keyOK (("created_utc").data) by decide, h1⟩
    · exact ⟨show keyOK (("source").data) by decide, h2⟩
    · exact ⟨show keyOK (("orig_filename").data) by decide, h3⟩
    · exact ⟨show keyOK (("topics").data) by decide, h4⟩
    · exact ⟨show keyOK (("version").data) by decide, h5⟩
    · exact ⟨show keyOK (("ocr_engine").data) by decide,
        show valOK (("tesseract").data) by decide⟩
  · rfl
  · have hmap : (sixPairs ts source orig (topics_field topics)
          version).map Prod.fst
        = [("created_utc").data, ("source").data, ("orig_filename").data,
           ("topics").data, ("version").data, ("ocr_engine").data] := rfl
    rw [hmap]
    decide

/-- C9 witness: a concrete round-trip through the real serializer and
parser. -/
theorem c9_roundtrip_witness :
    parse_frontmatter (create_note_text (("T").data) (("scr").data)
      (("a.png").data) none (("1.0").data) (("hello").data))
      = (sixPairs (("T").data) (("scr").data) (("a.png").data)
          (topics_field none) (("1.0").data),
        serializedBody (("hello").data)) :=
  c9_roundtrip_amended (("T").data) (("scr").data) (("a.png").data) none
    (("1.0").data) (("hello").data) (by decide) (by decide) (by decide)
    (by decide) (by decide) (by decide)

/-- C2 counterexample: the claim as stated is false.  On a clean working
tree (not dirty, no untracked files) git_add_commit_push returns a
GitOpsResult whose ok flag is False — the same status flag every error
result carries — so the no-op is not reported through a non-error
status. -/
theorem c2_claim_cex :
    (git_add_commit_push
      ⟨true, false, false, true, true, true, PushOutcome.okFlags, true,
        PullOutcome.ok, true, PushOutcome.okFlags⟩ true).1.ok = false := rfl

/-- C2 (amended): on a clean working tree git_add_commit_push performs
no commit and no push (the trace stays empty) and returns early with
ok = False and the message No changes to commit (clean working tree);
the no-op is distinguishable from an error only by its message text. -/
theorem c2_clean_tree_amended (env : GitEnv) (retry : Bool)
    (hv : env.repoValid = true) (hd : env.isDirty = false)
    (hu : env.hasUntracked = false) :
    git_add_commit_push env retry
      = (⟨false, "No changes to commit (clean working tree)."⟩, noTrace) := by
  simp [git_add_commit_push, hv, hd, hu]

/-- C2 witness: the amended statement at a concrete clean environment. -/
theorem c2_clean_tree_witness :
    git_add_commit_push
      ⟨true, false, false, true, true, true, PushOutcome.okFlags, true,
        PullOutcome.ok, true, PushOutcome.okFlags⟩ false
      = (⟨false, "No changes to commit (clean working tree)."⟩, noTrace) :=
  c2_clean_tree_amended _ false rfl rfl rfl

/-- C10: when the input path does not exist, extract_text and
create_note_from_image raise FileNotFoundError before any OCR or write
step, and the notes directory is returned unchanged. -/
theorem c10_missing_file (env : OcrEnv) (ts source orig : Str)
    (topics : Option Str) (version : Str) (fs : List NoteFile)
    (h : env.pathExists = false) :
    extract_text env = Except.error PyErr.fileNotFound ∧
    create_note_from_image env ts source orig topics version fs
      = (Except.error PyErr.fileNotFound, fs) := by
  constructor
  · simp [extract_text, h]
  · simp [create_note_from_image, h]

/-- C10 witness: the missing-file behaviour at a concrete environment. -/
theorem c10_missing_file_witness :
    extract_text ⟨false, OpenOutcome.ok, Except.ok []⟩
        = Except.error PyErr.fileNotFound ∧
    create_note_from_image ⟨false, OpenOutcome.ok, Except.ok []⟩ [] [] []
        none [] [] = (Except.error PyErr.fileNotFound, []) :=
  c10_missing_file _ [] [] [] none [] [] rfl

/-- C5: the duplicate filter of the polling feed.  An image event whose
fingerprint (the hash of the re-encoded PNG bytes) is already in the
process-lifetime seen set is dropped with nothing saved; a fresh
fingerprint is recorded and the image saved; and submitting the same
clipboard image content twice in succession saves exactly one capture
file. -/
theorem c5_duplicate_filter (Img : Type) (env : ClipEnv Img)
    (st : ClipState Img) (im : Img) :
    (env.pyHash (env.pngBytes im) ∈ st.seen →
      grab_poll_step env st (ClipItem.image im) = st) ∧
    (¬ env.pyHash (env.pngBytes im) ∈ st.seen →
      grab_poll_step env st (ClipItem.image im)
        = ⟨env.pyHash (env.pngBytes im) :: st.seen, st.saved ++ [im]⟩) ∧
    (¬ env.pyHash (env.pngBytes im) ∈ st.seen →
      (grab_poll_run env [ClipItem.image im, ClipItem.image im] st).saved
        = st.saved ++ [im]) := by
  refine ⟨?_, ?_, ?_⟩
  · intro h
    simp [grab_poll_step, h]
  · intro h
    simp [grab_poll_step, h]
  · intro h
    show (grab_poll_step env (grab_poll_step env st (ClipItem.image im))
      (ClipItem.image im)).saved = st.saved ++ [im]
    simp [grab_poll_step, h]

/-- C5 witness: two identical clipboard images in a row at a concrete
environment produce exactly one saved capture. -/
theorem c5_duplicate_filter_witness :
    (grab_poll_run
      ⟨fun n => [n], fun b => Int.ofNat b.length, fun _ => false,
        fun _ => none⟩
      [ClipItem.image 5, ClipItem.image 5] ⟨[], []⟩).saved
      = ([] : List Nat) ++ [5] :=
  (c5_duplicate_filter Nat _ _ 5).2.2 (by simp)

/-- C3: evaluating the build_index sort at the failing input.  One
entry whose created_utc parsed as a timezone-aware datetime (as every
timestamp written by create_note_from_image does) and one entry with a
missing or unparseable timestamp — whose sort key is the naive sentinel
datetime.min — make the sort comparison raise TypeError, so build_index
crashes instead of sorting the sentinel last. -/
theorem c3_mixed_sort_raises :
    build_index_order
      [⟨parse_iso (IsoOutcome.awareVal 100), 0⟩,
       ⟨parse_iso IsoOutcome.bad, 1⟩]
      = Except.error () := rfl

/-- C8 counterexample: the claim as stated is false.  A downstream
exception that ocr_image_to_markdown does not handle internally (here
Image.open raising an OSError rather than UnidentifiedImageError)
propagates out of on_created — the handler has a finally block but no
except block — although the in-flight mark is cleared. -/
theorem c8_claim_cex :
    (on_created ⟨fun _ => 1, OpenOutcome.raisesOther (PyErr.osError []),
        Except.ok [], [], none⟩ []
      ⟨(".png").data, ("a").data, ("a.png").data⟩).1
      = Except.error (PyErr.osError []) ∧
    (on_created ⟨fun _ => 1, OpenOutcome.raisesOther (PyErr.osError []),
        Except.ok [], [], none⟩ []
      ⟨(".png").data, ("a").data, ("a.png").data⟩).2 = [] :=
  ⟨rfl, rfl⟩

/-- C8 (amended): on_created drops an event whose path is already in
flight; otherwise it marks the path, runs the pipeline, and always
clears the in-flight mark (the try/finally), but it has no except
clause: the pipeline outcome — error or not — is returned unchanged, so
an exception not handled inside ocr_image_to_markdown propagates out of
the handler. -/
theorem c8_inflight_amended (env : WatchEnv) (busy : List PathV)
    (p : PathV) :
    (p ∈ busy → on_created env busy p = (Except.ok none, busy)) ∧
    (¬ p ∈ busy → on_created env busy p
      = (ocr_image_to_markdown env p (("screenshot").data), busy)) := by
  constructor
  · intro h
    simp [on_created, h]
  · intro h
    simp [on_created, h]

/-- C8 witness: the amended statement at a concrete environment whose
decode step raises an unhandled error. -/
theorem c8_inflight_witness :
    on_created ⟨fun _ => 1, OpenOutcome.raisesOther (PyErr.osError []),
        Except.ok [], [], none⟩ []
      ⟨(".jpg").data, ("b").data, ("b.jpg").data⟩
      = (Except.error (PyErr.osError []), []) := by
  have h := (c8_inflight_amended
    ⟨fun _ => 1, OpenOutcome.raisesOther (PyErr.osError []),
      Except.ok [], [], none⟩ []
    ⟨(".jpg").data, ("b").data, ("b.jpg").data⟩).2 (by simp)
  rw [h]
  rfl

/-- C1 counterexample: the claim as stated is false for the watcher
variant.  A note written by ocr_image_to_markdown has frontmatter keys
source, orig_filename, timestamp_utc, ocr_engine — not the six keys
created_utc, source, orig_filename, topics, version, ocr_engine the
claim asserts for both writers. -/
theorem c1_claim_cex :
    noteFmKeys (ocr_markdown_text (("screenshot").data) (("a.png").data)
      (("TS").data) (("hi").data))
      ≠ some [("created_utc").data, ("source").data,
        ("orig_filename").data, ("topics").data, ("version").data,
        ("ocr_engine").data] := by decide

/-- C1 (amended): for serialized values containing no newline, a note
written by create_note_from_image consists of exactly the opening
dashes line, the six frontmatter lines with keys created_utc, source,
orig_filename, topics, version, ocr_engine in that fixed order, the
closing dashes line, a blank line and the body lines (the no-text
marker when the OCR text is empty); the watcher variant
ocr_image_to_markdown instead writes exactly the four keys source,
orig_filename, timestamp_utc, ocr_engine in that order. -/
theorem c1_frontmatter_amended :
    (∀ (ts source orig : Str) (topics : Option Str) (version text : Str),
      (∀ c ∈ ts, c ≠ '\n') → (∀ c ∈ source, c ≠ '\n') →
      (∀ c ∈ orig, c ≠ '\n') → (∀ c ∈ topics_field topics, c ≠ '\n') →
      (∀ c ∈ version, c ≠ '\n') →
      splitNL (create_note_text ts source orig topics version text)
        = metaLines ts source orig (topics_field topics) version
          ++ bodyLines text ∧
      noteFmKeys (create_note_text ts source orig topics version text)
        = some [("created_utc").data, ("source").data,
            ("orig_filename").data, ("topics").data, ("version").data,
            ("ocr_engine").data]) ∧
    (∀ source_tag orig ts text : Str,
      (∀ c ∈ source_tag, c ≠ '\n') → (∀ c ∈ orig, c ≠ '\n') →
      (∀ c ∈ ts, c ≠ '\n') →
      splitNL (ocr_markdown_text source_tag orig ts text)
        = watcherMetaLines source_tag orig ts ++ bodyLines text ∧
      noteFmKeys (ocr_markdown_text source_tag orig ts text)
        = some [("source").data, ("orig_filename").data,
            ("timestamp_utc").data, ("ocr_engine").data]) := by
  constructor
  · intro ts source orig topics version text hts hsrc horig htop hver
    have hmlines : ∀ l ∈ metaLines ts source orig (topics_field topics)
        version, ∀ c ∈ l, c ≠ '\n' := by
      intro l hl
      simp [metaLines] at hl
      rcases hl with rfl | rfl | rfl | rfl | rfl | rfl | rfl | rfl | rfl
      · decide
      · exact kvline_no_nl (show ∀ c ∈ (("created_utc").data), c ≠ '\n' by decide) hts
      · exact kvline_no_nl (show ∀ c ∈ (("source").data), c ≠ '\n' by decide) hsrc
      · exact kvline_no_nl (show ∀ c ∈ (("orig_filename").data), c ≠ '\n' by decide) horig
      · exact kvline_no_nl (show ∀ c ∈ (("topics").data), c ≠ '\n' by decide) htop
      · exact kvline_no_nl (show ∀ c ∈ (("version").data), c ≠ '\n' by decide) hver
      · exact kvline_no_nl (show ∀ c ∈ (("ocr_engine").data), c ≠ '\n' by decide) (by decide)
      · decide
      · intro c hc
        cases hc
    constructor
    · exact noteLines_general _ text (by simp [metaLines]) hmlines
    · have hre : create_note_text ts source orig topics version text
          = joinNL ((dashes :: ((sixPairs ts source orig
              (topics_field topics) version).map
              (fun p => kvline p.1 p.2) ++ [dashes, []]))
            ++ bodyLines text) := rfl
      rw [hre, noteFmKeys_general]
      · rfl
      · intro p hp
        simp [sixPairs] at hp
        rcases hp with rfl | rfl | rfl | rfl | rfl | rfl
        · exact show keyOK (("created_utc").data) by decide
        · exact show keyOK (("source").data) by decide
        · exact show keyOK (("orig_filename").data) by decide
        · exact show keyOK (("topics").data) by decide
        · exact show keyOK (("version").data) by decide
        · exact show keyOK (("ocr_engine").data) by decide
      · intro p hp
        simp [sixPairs] at hp
        rcases hp with rfl | rfl | rfl | rfl | rfl | rfl
        · exact kvline_no_nl (show ∀ c ∈ (("created_utc").data), c ≠ '\n' by decide) hts
        · exact kvline_no_nl (show ∀ c ∈ (("source").data), c ≠ '\n' by decide) hsrc
        · exact kvline_no_nl (show ∀ c ∈ (("orig_filename").data), c ≠ '\n' by decide) horig
        · exact kvline_no_nl (show ∀ c ∈ (("topics").data), c ≠ '\n' by decide) htop
        · exact kvline_no_nl (show ∀ c ∈ (("version").data), c ≠ '\n' by decide) hver
        · exact kvline_no_nl (show ∀ c ∈ (("ocr_engine").data), c ≠ '\n' by decide) (by decide)
  · intro source_tag orig ts text hsrc horig hts
    have hmlines : ∀ l ∈ watcherMetaLines source_tag orig ts,
        ∀ c ∈ l, c ≠ '\n' := by
      intro l hl
      simp [watcherMetaLines] at hl
      rcases hl with rfl | rfl | rfl | rfl | rfl | rfl | rfl
      · decide
      · exact kvline_no_nl (show ∀ c ∈ (("source").data), c ≠ '\n' by decide) hsrc
      · exact kvline_no_nl (show ∀ c ∈ (("orig_filename").data), c ≠ '\n' by decide) horig
      · exact kvline_no_nl (show ∀ c ∈ (("timestamp_utc").data), c ≠ '\n' by decide) hts
      · exact kvline_no_nl (show ∀ c ∈ (("ocr_engine").data), c ≠ '\n' by decide) (by decide)
      · decide
      · intro c hc
        cases hc
    constructor
    · exact noteLines_general _ text (by simp [watcherMetaLines]) hmlines
    · have hre : ocr_markdown_text source_tag orig ts text
          = joinNL ((dashes :: ((fourPairs source_tag orig ts).map
              (fun p => kvline p.1 p.2) ++ [dashes, []]))
            ++ bodyLines text) := rfl
      rw [hre, noteFmKeys_general]
      · rfl
      · intro p hp
        simp [fourPairs] at hp
        rcases hp with rfl | rfl | rfl | rfl
        · exact show keyOK (("source").data) by decide
        · exact show keyOK (("orig_filename").data) by decide
        · exact show keyOK (("timestamp_utc").data) by decide
        · exact show keyOK (("ocr_engine").data) by decide
      · intro p hp
        simp [fourPairs] at hp
        rcases hp with rfl | rfl | rfl | rfl
        · exact kvline_no_nl (show ∀ c ∈ (("source").data), c ≠ '\n' by decide) hsrc
        · exact kvline_no_nl (show ∀ c ∈ (("orig_filename").data), c ≠ '\n' by decide) horig
        · exact kvline_no_nl (show ∀ c ∈ (("timestamp_utc").data), c ≠ '\n' by decide) hts
        · exact kvline_no_nl (show ∀ c ∈ (("ocr_engine").data), c ≠ '\n' by decide) (by decide)

/-- C1 witness: both amended statements at concrete arguments. -/
theorem c1_frontmatter_witness :
    noteFmKeys (create_note_text (("T").data) (("s").data)
      (("a.png").data) none (("1.0").data) (("hi").data))
      = some [("created_utc").data, ("source").data,
          ("orig_filename").data, ("topics").data, ("version").data,
          ("ocr_engine").data] ∧
    noteFmKeys (ocr_markdown_text (("screenshot").data) (("a.png").data)
      (("TS").data) (("hi").data))
      = some [("source").data, ("orig_filename").data,
          ("timestamp_utc").data, ("ocr_engine").data] :=
  ⟨(c1_frontmatter_amended.1 (("T").data) (("s").data) (("a.png").data)
      none (("1.0").data) (("hi").data) (by decide) (by decide) (by decide)
      (by decide) (by decide)).2,
   (c1_frontmatter_amended.2 (("screenshot").data) (("a.png").data)
      (("TS").data) (("hi").data) (by decide) (by decide) (by decide)).2⟩

/-- C4: when the image is decodable and the external OCR call raises,
the error is not propagated out of the extraction step: extract_text
returns the OCR ERROR marker text, the note is still created (and
appended to the notes directory), and the serialized note body begins
with the OCR ERROR marker; the watcher variant behaves the same. -/
theorem c4_ocr_error_captured :
    (∀ (env : OcrEnv) (ts source orig : Str) (topics : Option Str)
        (version : Str) (fs : List NoteFile) (e : Str),
      env.pathExists = true → env.openOut = OpenOutcome.ok →
      env.ocr = Except.error e →
      extract_text env = Except.ok (("[OCR ERROR] ").data ++ e) ∧
      create_note_from_image env ts source orig topics version fs
        = (Except.ok ⟨create_note_text ts source orig topics version
            (("[OCR ERROR] ").data ++ e)⟩,
          fs ++ [⟨create_note_text ts source orig topics version
            (("[OCR ERROR] ").data ++ e)⟩]) ∧
      ∃ t2, serializedBody (("[OCR ERROR] ").data ++ e)
        = ("[OCR ERROR]").data ++ t2) ∧
    (∀ (env : WatchEnv) (p : PathV) (source_tag : Str) (e : Str),
      p.suffix ∈ allowedExt → env.openOut = OpenOutcome.ok →
      env.ocr = Except.error e → env.writeErr = none →
      ocr_image_to_markdown env p source_tag
        = Except.ok (some ⟨ocr_markdown_text source_tag p.name env.ts
            (("[OCR ERROR] ").data ++ e)⟩) ∧
      ∃ t2, serializedBody (("[OCR ERROR] ").data ++ e)
        = ("[OCR ERROR]").data ++ t2) := by
  constructor
  · intro env ts source orig topics version fs e hex hopen hocr
    have h1 : extract_text env = Except.ok (("[OCR ERROR] ").data ++ e) := by
      simp [extract_text, hex, hopen, hocr]
    refine ⟨h1, ?_, ?_⟩
    · simp [create_note_from_image, hex, h1]
    · exact serializedBody_prefix (("[OCR ERROR]").data) (' ' :: e)
        (by decide) (by decide)
  · intro env p source_tag e hsuf hopen hocr hwrite
    constructor
    · simp [ocr_image_to_markdown, hsuf, hopen, hocr, hwrite]
    · exact serializedBody_prefix (("[OCR ERROR]").data) (' ' :: e)
        (by decide) (by decide)

/-- C4 witness: both variants at a concrete failing-OCR environment. -/
theorem c4_ocr_error_witness :
    extract_text ⟨true, OpenOutcome.ok, Except.error (("boom").data)⟩
      = Except.ok (("[OCR ERROR] boom").data) ∧
    ocr_image_to_markdown
      ⟨fun _ => 1, OpenOutcome.ok, Except.error (("boom").data),
        ("TS").data, none⟩
      ⟨(".png").data, ("a").data, ("a.png").data⟩ (("screenshot").data)
      = Except.ok (some ⟨ocr_markdown_text (("screenshot").data)
          (("a.png").data) (("TS").data) (("[OCR ERROR] boom").data)⟩) :=
  ⟨((c4_ocr_error_captured.1
      ⟨true, OpenOutcome.ok, Except.error (("boom").data)⟩ [] [] [] none []
      [] (("boom").data) rfl rfl rfl).1),
   ((c4_ocr_error_captured.2
      ⟨fun _ => 1, OpenOutcome.ok, Except.error (("boom").data),
        ("TS").data, none⟩
      ⟨(".png").data, ("a").data, ("a.png").data⟩ (("screenshot").data)
      (("boom").data) (by decide) rfl rfl rfl).1)⟩

/-- C7 counterexample: the claim as stated is false.  When the first
push is rejected via error flags and the retried push is also rejected
via error flags (without raising), git_add_commit_push reports overall
success — ok is True — because the retried push result is never
inspected; the claim requires final failure when the retried push does
not succeed. -/
theorem c7_claim_cex :
    (git_add_commit_push
      ⟨true, true, false, true, true, true, PushOutcome.errFlags, true,
        PullOutcome.ok, true, PushOutcome.errFlags⟩ true).1.ok = true ∧
    (git_add_commit_push
      ⟨true, true, false, true, true, true, PushOutcome.errFlags, true,
        PullOutcome.ok, true, PushOutcome.errFlags⟩ true).2.retries = 1 :=
  ⟨rfl, rfl⟩

/-- C7 (amended): when the first push raises or reports rejection
flags, exactly one retry is attempted (fetch, pull with rebase falling
back to a plain pull, push again) and at most two pushes happen in
total; the call reports overall success exactly when the fetch
succeeds, the rebase (or its plain-pull fallback) succeeds, and the
retried push does not raise — including when the retried push is
rejected again via error flags, which the code does not inspect — and
final failure otherwise, with no second retry. -/
theorem c7_retry_amended (env : GitEnv)
    (hv : env.repoValid = true)
    (hdirty : env.isDirty = true ∨ env.hasUntracked = true)
    (hadd : env.addOk = true) (hcommit : env.commitOk = true)
    (hrem : env.hasRemotes = true)
    (hpush : env.push1 = PushOutcome.errFlags
      ∨ env.push1 = PushOutcome.raisesGit) :
    (git_add_commit_push env true).2.retries = 1 ∧
    (git_add_commit_push env true).2.pushAttempts ≤ 2 ∧
    ((git_add_commit_push env true).1.ok = true ↔
      (env.fetchOk = true ∧
        (env.pullRebase = PullOutcome.ok ∨
          (env.pullRebase = PullOutcome.raisesGit
            ∧ env.pullPlainOk = true)) ∧
        env.push2 ≠ PushOutcome.raisesGit ∧
        env.push2 ≠ PushOutcome.raisesOther)) := by
  have hmain : git_add_commit_push env true = gitRetryBlock env := by
    unfold git_add_commit_push
    rcases hdirty with hd | hd <;>
      rcases hpush with hp | hp <;>
        simp [hv, hd, hadd, hcommit, hrem, hp]
  rw [hmain]
  unfold gitRetryBlock
  cases hfetch : env.fetchOk <;>
    cases hpr : env.pullRebase <;>
      cases hp2 : env.push2 <;>
        cases hpp : env.pullPlainOk <;>
          simp [hfetch, hpr, hp2, hpp]

/-- C7 witness: push rejected once, then the rebase retry push
succeeds, and the call reports overall success with exactly one
retry. -/
theorem c7_retry_witness :
    (git_add_commit_push
      ⟨true, true, false, true, true, true, PushOutcome.errFlags, true,
        PullOutcome.ok, true, PushOutcome.okFlags⟩ true).1.ok = true := by
  have h := c7_retry_amended
    ⟨true, true, false, true, true, true, PushOutcome.errFlags, true,
      PullOutcome.ok, true, PushOutcome.okFlags⟩ rfl (Or.inl rfl) rfl rfl
    rfl (Or.inl rfl)
  exact h.2.2.mpr ⟨rfl, Or.inl rfl, by decide, by decide⟩

end Envisage
